import Mathlib

/-!
# Verification of the dungeon generator and reachability analyzer

Shallow embedding of the procedural dungeon generator of this repository
(the maze variant: BSP room carving, corridor/door placement, lava hazard
scattering, slide-move breadth-first reachability, and the retry-based
assembler).  Tile values, the slide loop, the BFS worklist, and the
generation pipeline are translated directly from the source; the seeded
random source is a third-party library and is modelled from the spec as a
deterministic pure generator.

Coordinates are `Int × Int` (the source uses JS numbers and compares
against `0`/`MAP_WIDTH`/`MAP_HEIGHT`); tile kinds are the source's numeric
constants.  Loops that the source bounds implicitly (the slide, the BFS
worklist) take an explicit fuel argument large enough to never run out on
the inputs the program reaches; invariant lemmas hold for every fuel.
-/

/-! ## Tile constants and the map (source: part_001 lines 9-14) -/

def TILE_WALL : Nat := 0
def TILE_FLOOR : Nat := 1
def TILE_STONE : Nat := 2
def TILE_LAVA : Nat := 3
def TILE_COIN : Nat := 4
def TILE_EXIT : Nat := 100

/-- A position on the tile grid, `(x, y)`. -/
abbrev Pos := Int × Int

/-- The tile grid together with its dimensions (`MAP_WIDTH`/`MAP_HEIGHT`
and `this.map`, indexed `map[y][x]`; here `tile x y`). -/
structure GameMap where
  width : Nat
  height : Nat
  tile : Int → Int → Nat

/-- `map[y][x] = v` (functional update of one cell). -/
def setTile (m : GameMap) (p : Pos) (v : Nat) : GameMap :=
  { m with tile := fun a b => if a = p.1 ∧ b = p.2 then v else m.tile a b }

/-- Bounds test of the source loops: `0 <= x < MAP_WIDTH`, `0 <= y < MAP_HEIGHT`. -/
def inBounds (m : GameMap) (x y : Int) : Prop :=
  0 ≤ x ∧ x < (m.width : Int) ∧ 0 ≤ y ∧ y < (m.height : Int)

instance (m : GameMap) (x y : Int) : Decidable (inBounds m x y) := by
  unfold inBounds; infer_instance

/-- The tiles that block a slide: `TILE_WALL || TILE_STONE || TILE_LAVA`
(part_001 line 1163). -/
def blocking (t : Nat) : Prop := t = TILE_WALL ∨ t = TILE_STONE ∨ t = TILE_LAVA

instance (t : Nat) : Decidable (blocking t) := by
  unfold blocking; infer_instance

/-! ## The slide loop (part_001 lines 1148-1170)

State `(x, y, steps, tile)` mirrors the source's loop variables: `tile`
starts `null` (`none`) and holds the last tile examined — the blocking
tile on a normal stop, the last stepped-on tile when the loop leaves the
grid. -/

def slideGo (m : GameMap) (dx dy : Int) :
    Nat → Int × Int × Nat × Option Nat → Int × Int × Nat × Option Nat
  | 0, st => st
  | fuel + 1, (x, y, steps, tile) =>
    if ¬ inBounds m (x + dx) (y + dy) then (x, y, steps, tile)
    else if blocking (m.tile (x + dx) (y + dy)) then
      (x, y, steps, some (m.tile (x + dx) (y + dy)))
    else slideGo m dx dy fuel (x + dx, y + dy, steps + 1, some (m.tile (x + dx) (y + dy)))

/-- One maximal slide from `(x, y)` in direction `(dx, dy)`: final
position, number of steps taken, and the last examined tile. -/
def slide (m : GameMap) (dx dy x y : Int) : Int × Int × Nat × Option Nat :=
  slideGo m dx dy (m.width + m.height + 2) (x, y, 0, none)

/-- The four directions, in the source's order (part_001 lines 1141-1146). -/
def dirList : List (Int × Int) := [(-1, 0), (1, 0), (0, -1), (0, 1)]

/-! ## The BFS worklist of `findReachablePositions` (part_001 lines 1124-1189) -/

/-- BFS state: `visited` (the JS `Set`, in insertion order), `dists`
(the JS `distances` object, as an association list), `queue` of
`(position, distance)`. -/
structure BfsState where
  visited : List Pos
  dists : List (Pos × Nat)
  queue : List (Pos × Nat)

/-- The slide from cell `c` in direction `dir`. -/
def slideRes (m : GameMap) (c : Pos) (dir : Int × Int) : Int × Int × Nat × Option Nat :=
  slide m dir.1 dir.2 c.1 c.2

/-- Landing position of the slide from `c` in direction `dir`. -/
def landPos (m : GameMap) (c : Pos) (dir : Int × Int) : Pos :=
  ((slideRes m c dir).1, (slideRes m c dir).2.1)

/-- Number of steps of the slide from `c` in direction `dir`. -/
def landSteps (m : GameMap) (c : Pos) (dir : Int × Int) : Nat :=
  (slideRes m c dir).2.2.1

/-- Last examined tile of the slide from `c` in direction `dir` (the JS
`tile` variable after the inner `while`). -/
def landTile (m : GameMap) (c : Pos) (dir : Int × Int) : Option Nat :=
  (slideRes m c dir).2.2.2

/-- Process the directions of one dequeued cell `c` at distance `d`.
Mirrors the `for (let dir of directions)` body: a slide whose last
examined tile is `TILE_LAVA` executes `break`, abandoning the remaining
directions of this cell; otherwise a slide of at least one step enqueues
an unvisited landing at distance `d + 1`. -/
def processDirs (m : GameMap) (c : Pos) (d : Nat) :
    List (Int × Int) → BfsState → BfsState
  | [], st => st
  | dir :: rest, st =>
    if landTile m c dir = some TILE_LAVA then st
    else if 0 < landSteps m c dir then
      if landPos m c dir ∈ st.visited then processDirs m c d rest st
      else
        processDirs m c d rest
          ⟨st.visited ++ [landPos m c dir], st.dists ++ [(landPos m c dir, d + 1)],
           st.queue ++ [(landPos m c dir, d + 1)]⟩
    else processDirs m c d rest st

/-- The `while (queue.length > 0)` loop: dequeue from the front
(`queue.shift()`) and process the cell's directions. -/
def bfsRun (m : GameMap) : Nat → BfsState → BfsState
  | 0, st => st
  | fuel + 1, st =>
    match st.queue with
    | [] => st
    | (c, d) :: rest => bfsRun m fuel (processDirs m c d dirList ⟨st.visited, st.dists, rest⟩)

/-- Fuel that lets the worklist run to an empty queue: each processed cell
either shrinks the queue or grows `visited`, which is bounded by the grid
size plus the start. -/
def bfsFuel (m : GameMap) : Nat := 2 * (m.width * m.height) + 2

/-- `findReachablePositions(map, startX, startY)`: the visited set (in
insertion order) and the distance map. -/
def findReachablePositions (m : GameMap) (sx sy : Int) : List Pos × List (Pos × Nat) :=
  let st := bfsRun m (bfsFuel m) ⟨[(sx, sy)], [((sx, sy), 0)], [((sx, sy), 0)]⟩
  (st.visited, st.dists)

/-- A valid slide move per spec §4.6: at least one tile of progress and
the move does not terminate by stepping onto a `TILE_LAVA` tile.  Used to
state the spec's slide-reachability against the code's visited set. -/
def validSlideMove (m : GameMap) (c c' : Pos) : Prop :=
  ∃ dir ∈ dirList,
    let r := slide m dir.1 dir.2 c.1 c.2
    r.2.2.2 ≠ some TILE_LAVA ∧ 0 < r.2.2.1 ∧ c' = (r.1, r.2.1)

instance (m : GameMap) (c c' : Pos) : Decidable (validSlideMove m c c') := by
  unfold validSlideMove; infer_instance

/-- Build a map from a list of rows (row `y`, column `x`), walls outside. -/
def mkMap (w h : Nat) (rows : List (List Nat)) : GameMap :=
  ⟨w, h, fun x y =>
    if 0 ≤ x ∧ 0 ≤ y then ((rows.getD y.toNat []).getD x.toNat TILE_WALL)
    else TILE_WALL⟩

/-! ## The slide-move edge relation realised by the BFS

The source's `break` on a lava-terminating slide abandons the remaining
directions of the current cell, so the set of moves the BFS can make from
a cell is the direction list truncated at the first lava-terminating
direction.  `edgeDirs` computes exactly the landings `processDirs` can
add. -/

def edgeDirs (m : GameMap) (c : Pos) : List (Int × Int) → List Pos
  | [] => []
  | dir :: rest =>
    if landTile m c dir = some TILE_LAVA then []
    else if 0 < landSteps m c dir then landPos m c dir :: edgeDirs m c rest
    else edgeDirs m c rest

/-- All slide-move targets the BFS explores from cell `c`. -/
def edges (m : GameMap) (c : Pos) : List Pos := edgeDirs m c dirList

/-- Slide-move reachability as the BFS realises it. -/
def slideReach (m : GameMap) (s : Pos) : Pos → Prop :=
  Relation.ReflTransGen (fun a b => b ∈ edges m a) s

/-- The worklist invariant: no duplicate visits; every visited cell is the
start or an in-bounds, non-blocking landing; queued cells are visited;
every visited cell is slide-reachable from the start; every visited cell
is either still queued or has all its edge targets visited. -/
def BfsInv (m : GameMap) (s : Pos) (st : BfsState) : Prop :=
  st.visited.Nodup ∧
  (∀ p ∈ st.visited, p = s ∨ (inBounds m p.1 p.2 ∧ ¬ blocking (m.tile p.1 p.2))) ∧
  (∀ e ∈ st.queue, e.1 ∈ st.visited) ∧
  (∀ p ∈ st.visited, slideReach m s p) ∧
  (∀ p ∈ st.visited, (∃ dd : Nat, (p, dd) ∈ st.queue) ∨ ∀ q ∈ edges m p, q ∈ st.visited)

/-- The initial BFS state of `findReachablePositions`. -/
def bfsInit (s : Pos) : BfsState := ⟨[s], [(s, 0)], [(s, 0)]⟩

/-! ## Relating a map to the same map with some walls turned to lava -/

/-- Tile-value relation between an original map and one where some `Wall`
tiles were converted to `Lava` (what `addLava` does). -/
def ValRel (a b : Nat) : Prop := b = a ∨ (a = TILE_WALL ∧ b = TILE_LAVA)

def OptValRel : Option Nat → Option Nat → Prop
  | none, none => True
  | some a, some b => ValRel a b
  | _, _ => False

/-- Map relation: same dimensions, and pointwise each tile is unchanged
or was a `Wall` turned into `Lava`. -/
def TileRel (m m' : GameMap) : Prop :=
  m'.width = m.width ∧ m'.height = m.height ∧
  ∀ x y : Int, ValRel (m.tile x y) (m'.tile x y)

/-! ## The random source

Modelled from the spec: the source draws from the rendering library's
seeded `RandomDataGenerator` (third-party code, not part of this
repository).  Spec §4.1: a deterministic seeded generator offering
`nextInt(min, max)` inclusive uniform, `shuffle` (Fisher-Yates, uniform
permutation) and `pick` (uniform element, undefined on empty input).  The
generator state is a natural number advanced by a fixed congruential
step. -/

/-- Modelled from the spec: one deterministic draw of the seeded random
source. -/
def rngNext (s : Nat) : Nat := (s * 1103515245 + 12345) % 4294967296

/-- Modelled from the spec: deterministic seeding
(`new RandomDataGenerator([seed.toString()])`). -/
def rdgInit (seed : Nat) : Nat := rngNext seed

/-- Modelled from the spec: `random.between(lo, hi)`, a uniform integer in
`[lo, hi]` (both inclusive), plus the advanced generator state. -/
def rngBetween (lo hi s : Nat) : Nat × Nat := (lo + rngNext s % (hi + 1 - lo), rngNext s)

/-- Modelled from the spec: `random.shuffle(list)` — Fisher-Yates: draw a
uniform index, move that element to the front, recurse on the rest.  The
fuel argument (instantiated with the list length) only drives the
structural recursion. -/
def rngShuffleGo {α : Type} : Nat → Nat → List α → List α × Nat
  | 0, s, _ => ([], s)
  | _ + 1, s, [] => ([], s)
  | fuel + 1, s, x :: xs =>
    ((x :: xs).getD (rngNext s % (x :: xs).length) x ::
        (rngShuffleGo fuel (rngNext s) ((x :: xs).eraseIdx (rngNext s % (x :: xs).length))).1,
      (rngShuffleGo fuel (rngNext s) ((x :: xs).eraseIdx (rngNext s % (x :: xs).length))).2)

def rngShuffle {α : Type} (s : Nat) (l : List α) : List α × Nat :=
  rngShuffleGo l.length s l

/-- Modelled from the spec: `random.pick(list)` — a uniform element of a
non-empty list, `undefined` (here `none`) on an empty one. -/
def rngPick {α : Type} : Nat → List α → Option (α × Nat)
  | _, [] => none
  | s, x :: xs => some ((x :: xs).getD (rngNext s % (x :: xs).length) x, rngNext s)

/-! ## Hazard scattering: `addLava` (part_001 lines 1087-1121) -/

/-- 4-neighbour floor adjacency test of the candidate scan. -/
def hasFloorNeighbor (m : GameMap) (x y : Int) : Prop :=
  m.tile (x - 1) y = TILE_FLOOR ∨ m.tile (x + 1) y = TILE_FLOOR ∨
    m.tile x (y - 1) = TILE_FLOOR ∨ m.tile x (y + 1) = TILE_FLOOR

instance (m : GameMap) (x y : Int) : Decidable (hasFloorNeighbor m x y) := by
  unfold hasFloorNeighbor; infer_instance

/-- The `wallTiles` list of `addLava`: non-border wall tiles adjacent to a
floor tile, scanned rows-outer/columns-inner exactly like the source
(`y` from `1` to `MAP_HEIGHT - 2`, `x` from `1` to `MAP_WIDTH - 2`). -/
def lavaCandidates (m : GameMap) : List Pos :=
  (((List.range' 1 (m.height - 2)).product (List.range' 1 (m.width - 2))).map
      (fun q => ((q.2 : Int), (q.1 : Int)))).filter
    (fun p => decide (m.tile p.1 p.2 = TILE_WALL ∧ hasFloorNeighbor m p.1 p.2))

/-- `addLava(map, random)`: compute the candidates, shuffle them, and turn
the first `floor(candidates * 0.05)` of them into lava.  (`Math.floor(n *
0.05)` agrees with `n * 5 / 100` in exact arithmetic.) -/
def addLava (m : GameMap) (s : Nat) : GameMap × Nat :=
  ((((rngShuffle s (lavaCandidates m)).1).take ((lavaCandidates m).length * 5 / 100)).foldl
      (fun acc p => setTile acc p TILE_LAVA) m,
    (rngShuffle s (lavaCandidates m)).2)

/-! ## The changed-tile count of `addLava` -/

/-- The grid coordinates as a finite set. -/
def gridFinset (m : GameMap) : Finset Pos :=
  (Finset.range m.width ×ˢ Finset.range m.height).image
    (fun q => (((q.1 : Nat) : Int), ((q.2 : Nat) : Int)))

/-! ## Start/exit placement: `placeStartAndExit` (part_001 lines 605-651) -/

/-- First-match association lookup (the JS `distances[key]` object read;
keys are recorded at most once). -/
def assocFind (l : List (Pos × Nat)) (p : Pos) : Option Nat :=
  match l with
  | [] => none
  | (q, v) :: rest => if q = p then some v else assocFind rest p

/-- The floor-tile scan of `placeStartAndExit` (`y` outer, `x` inner, over
the whole grid). -/
def floorTiles (m : GameMap) : List Pos :=
  (((List.range' 0 m.height).product (List.range' 0 m.width)).map
      (fun q => ((q.2 : Int), (q.1 : Int)))).filter
    (fun p => decide (m.tile p.1 p.2 = TILE_FLOOR))

/-- The `visited.forEach` accumulation: track the maximum distance of
tiles at distance `>= 5` other than the start, and the list of tiles
realising it. -/
def furthestScan (dists : List (Pos × Nat)) (start : Pos) :
    List Pos → Nat × List Pos → Nat × List Pos
  | [], acc => acc
  | p :: rest, (maxD, fur) =>
    if 5 ≤ (assocFind dists p).getD 0 ∧ p ≠ start then
      if maxD < (assocFind dists p).getD 0 then
        furthestScan dists start rest ((assocFind dists p).getD 0, [p])
      else if (assocFind dists p).getD 0 = maxD then
        furthestScan dists start rest (maxD, fur ++ [p])
      else furthestScan dists start rest (maxD, fur)
    else furthestScan dists start rest (maxD, fur)

/-- The max-distance scan result for map `m` from `start`. -/
def psaeScan (m : GameMap) (start : Pos) : Nat × List Pos :=
  furthestScan (findReachablePositions m start.1 start.2).2 start
    (findReachablePositions m start.1 start.2).1 (0, [])

/-- `placeStartAndExit(random)`: shuffle the floor tiles, take the first
as start, run the analyzer, scan for the furthest positions at distance
`>= 5`, fail (`return false`, here `none`) if none, otherwise pick the
exit uniformly among them.  An empty floor list would make the JS crash
on `floorTiles[0]`; the thrown error aborts the attempt, modelled as
`none`. -/
def placeStartAndExit (m : GameMap) (s : Nat) : Option (Pos × Pos × Nat) :=
  match (rngShuffle s (floorTiles m)).1 with
  | [] => none
  | start :: _ =>
    if (psaeScan m start).1 < 5 ∨ (psaeScan m start).2 = [] then none
    else
      match rngPick (rngShuffle s (floorTiles m)).2 (psaeScan m start).2 with
      | none => none
      | some (e, s2) => some (start, e, s2)

/-! ## Rooms and the BSP leaf tree (part_001 lines 854-996) -/

/-- A carved room: rectangle plus its recorded door points. -/
structure Room where
  x : Nat
  y : Nat
  width : Nat
  height : Nat
  doors : List (Nat × Nat)
deriving DecidableEq

def Room.centerX (r : Room) : Nat := r.x + r.width / 2
def Room.centerY (r : Room) : Nat := r.y + r.height / 2

def Room.addDoor (r : Room) (dx dy : Nat) : Room :=
  { r with doors := r.doors ++ [(dx, dy)] }

/-- A BSP node: rectangle, optional children, optional room. -/
inductive Leaf where
  | node (x y width height : Nat) (leftChild rightChild : Option Leaf) (room : Option Room)

def MIN_LEAF_SIZE : Nat := 6

/-- The split axis the source selects: the random draw `b` unless one
dimension is at least 1.25 times the other (`w / h >= 1.25` on integers
is exactly `4 * w >= 5 * h`), which forces the long axis. -/
def chosenSplitH (w h : Nat) (b : Nat) : Bool :=
  if w > h ∧ 4 * w ≥ 5 * h then false
  else if h > w ∧ 4 * h ≥ 5 * w then true
  else b = 0

/-- The source's `max`: the chosen-axis dimension minus `MIN_LEAF_SIZE`. -/
def splitMax (w h b : Nat) : Nat := (if chosenSplitH w h b then h else w) - MIN_LEAF_SIZE

/-- The split position drawn in `[MIN_LEAF_SIZE, max]` (the second draw
of `Leaf.split`, after the axis coin). -/
def splitDraw (w h s : Nat) : Nat :=
  (rngBetween MIN_LEAF_SIZE (splitMax w h (rngBetween 0 1 s).1) (rngBetween 0 1 s).2).1

/-- The generator state after both draws of a successful split. -/
def splitDrawState (w h s : Nat) : Nat :=
  (rngBetween MIN_LEAF_SIZE (splitMax w h (rngBetween 0 1 s).1) (rngBetween 0 1 s).2).2

/-- `Leaf.split(random)`: `none` models `return false` (no mutation):
refused when already split or when `max <= MIN_LEAF_SIZE`; on success the
children partition the rectangle at the drawn position. -/
def Leaf.split (l : Leaf) (s : Nat) : Option Leaf × Nat :=
  match l with
  | .node x y w h lc rc room =>
    if lc.isSome ∨ rc.isSome then (none, s)
    else if splitMax w h (rngBetween 0 1 s).1 ≤ MIN_LEAF_SIZE then
      (none, (rngBetween 0 1 s).2)
    else if chosenSplitH w h (rngBetween 0 1 s).1 then
      (some (.node x y w h
        (some (.node x y w (splitDraw w h s) none none none))
        (some (.node x (y + splitDraw w h s) w (h - splitDraw w h s) none none none)) room),
       splitDrawState w h s)
    else
      (some (.node x y w h
        (some (.node x y (splitDraw w h s) h none none none))
        (some (.node (x + splitDraw w h s) y (w - splitDraw w h s) h none none none)) room),
       splitDrawState w h s)

/-! ## Doors, corridors and stones (part_001 lines 998-1084) -/

/-- The eight corner-adjacent door candidates, in source order. -/
def doorPositions (room : Room) : List (Nat × Nat) :=
  [(room.x + 1, room.y), (room.x + room.width - 2, room.y),
   (room.x + 1, room.y + room.height - 1),
   (room.x + room.width - 2, room.y + room.height - 1),
   (room.x, room.y + 1), (room.x, room.y + room.height - 2),
   (room.x + room.width - 1, room.y + 1),
   (room.x + room.width - 1, room.y + room.height - 2)]

/-- `getDoorPosition(room, random)`: a uniform pick among the eight
candidates (`random.pick`, inlined on the non-empty list). -/
def getDoorPosition (room : Room) (s : Nat) : (Nat × Nat) × Nat :=
  ((doorPositions room).getD (rngNext s % (doorPositions room).length)
    (room.x + 1, room.y), rngNext s)

/-- Whether `door` is one of the four corners of `room`. -/
def isCorner (room : Room) (door : Nat × Nat) : Prop :=
  (door.1 = room.x ∨ door.1 = room.x + room.width - 1) ∧
  (door.2 = room.y ∨ door.2 = room.y + room.height - 1)

instance (room : Room) (door : Nat × Nat) : Decidable (isCorner room door) := by
  unfold isCorner; infer_instance

/-- The stone cell chosen by the not-a-corner branch of
`checkAndPlaceStone`: one tile inward from the room wall the door sits
on. -/
def stonePos (room : Room) (door : Nat × Nat) : Nat × Nat :=
  if door.1 = room.x then (door.1 + 1, door.2)
  else if door.1 = room.x + room.width - 1 then (door.1 - 1, door.2)
  else if door.2 = room.y then (door.1, door.2 + 1)
  else if door.2 = room.y + room.height - 1 then (door.1, door.2 - 1)
  else (door.1, door.2)

def checkAndPlaceStone (room : Room) (door : Nat × Nat) (m : GameMap) : GameMap :=
  if isCorner room door then m
  else setTile m (((stonePos room door).1 : Int), ((stonePos room door).2 : Int)) TILE_STONE

def carveHorizontalTunnel (x1 x2 y : Nat) (m : GameMap) : GameMap :=
  ((List.range' (min x1 x2) (max x1 x2 + 1 - min x1 x2)).map
    (fun x => ((x : Int), (y : Int)))).foldl (fun acc p => setTile acc p TILE_FLOOR) m

def carveVerticalTunnel (y1 y2 x : Nat) (m : GameMap) : GameMap :=
  ((List.range' (min y1 y2) (max y1 y2 + 1 - min y1 y2)).map
    (fun y => ((x : Int), (y : Int)))).foldl (fun acc p => setTile acc p TILE_FLOOR) m

/-- `createCorridor(roomA, roomB, map, random)`: choose a door on each
room, carve both doors, carve an L-shaped tunnel (order randomized), then
place stones at non-corner doors.  Returns the door-augmented rooms, the
carved map and the generator state. -/
def createCorridor (roomA roomB : Room) (m : GameMap) (s : Nat) :
    Room × Room × GameMap × Nat :=
  let dA := (getDoorPosition roomA s).1
  let s1 := (getDoorPosition roomA s).2
  let dB := (getDoorPosition roomB s1).1
  let s2 := (getDoorPosition roomB s1).2
  let m1 := setTile m ((dA.1 : Int), (dA.2 : Int)) TILE_FLOOR
  let m2 := setTile m1 ((dB.1 : Int), (dB.2 : Int)) TILE_FLOOR
  let c := (rngBetween 0 1 s2).1
  let s3 := (rngBetween 0 1 s2).2
  let m3 :=
    if c = 1 then
      carveVerticalTunnel dA.2 dB.2 dB.1 (carveHorizontalTunnel dA.1 dB.1 dA.2 m2)
    else
      carveHorizontalTunnel dA.1 dB.1 dB.2 (carveVerticalTunnel dA.2 dB.2 dA.1 m2)
  let m4 := checkAndPlaceStone roomA dA m3
  let m5 := checkAndPlaceStone roomB dB m4
  (roomA.addDoor dA.1 dA.2, roomB.addDoor dB.1 dB.2, m5, s3)

/-! ## Room carving and the recursive connector (part_001 lines 915-996) -/

/-- Dig out the interior of a room (one-tile wall ring kept). -/
def digRoom (m : GameMap) (rx ry rw rh : Nat) : GameMap :=
  (((List.range' (ry + 1) (rh - 2)).product (List.range' (rx + 1) (rw - 2))).map
    (fun q => (((q.2 : Nat) : Int), ((q.1 : Nat) : Int)))).foldl
    (fun acc p => setTile acc p TILE_FLOOR) m

/-- `Leaf.getRoom(random)`: the subtree's representative room, chosen by
coin flip where both children contribute one. -/
def Leaf.getRoom : Leaf → Nat → Option Room × Nat
  | .node _ _ _ _ lc rc room, s =>
    match room with
    | some r => (some r, s)
    | none =>
      let lres := match lc with
        | none => ((none : Option Room), s)
        | some l => l.getRoom s
      let rres := match rc with
        | none => ((none : Option Room), lres.2)
        | some r => r.getRoom lres.2
      match lres.1, rres.1 with
      | none, none => (none, rres.2)
      | none, some r => (some r, rres.2)
      | some l, none => (some l, rres.2)
      | some l, some r =>
        if (rngBetween 0 1 rres.2).1 = 0 then (some l, (rngBetween 0 1 rres.2).2)
        else (some r, (rngBetween 0 1 rres.2).2)

/-- `Leaf.createRooms(map, random)`: post-order — recurse into children,
then connect their representative rooms; at a terminal leaf draw the room
rectangle (size in `[4, dim - 2]`, position leaving a one-tile margin),
dig it and register it.  A missing representative room would make the
source call `getDoorPosition` on `null` and throw; that aborts the
attempt, modelled as `none`. -/
def Leaf.createRooms : Leaf → GameMap → List Room → Nat →
    Option (Leaf × GameMap × List Room × Nat)
  | .node x y w h (some l) (some r) room, m, rooms, s =>
    match l.createRooms m rooms s with
    | none => none
    | some (l', m1, rooms1, s1) =>
      match r.createRooms m1 rooms1 s1 with
      | none => none
      | some (r', m2, rooms2, s2) =>
        match l'.getRoom s2 with
        | (lRoom, s3) =>
          match r'.getRoom s3 with
          | (rRoom, s4) =>
            match lRoom, rRoom with
            | some ra, some rb =>
              match createCorridor ra rb m2 s4 with
              | (_, _, m3, s5) =>
                some (.node x y w h (some l') (some r') room, m3, rooms2, s5)
            | _, _ => none
  | .node x y w h (some l) none room, m, rooms, s =>
    match l.createRooms m rooms s with
    | none => none
    | some (l', m1, rooms1, s1) =>
      some (.node x y w h (some l') none room, m1, rooms1, s1)
  | .node x y w h none (some r) room, m, rooms, s =>
    match r.createRooms m rooms s with
    | none => none
    | some (r', m1, rooms1, s1) =>
      some (.node x y w h none (some r') room, m1, rooms1, s1)
  | .node x y w h none none _, m, rooms, s =>
    let rw := (rngBetween 4 (w - 2) s).1
    let s1 := (rngBetween 4 (w - 2) s).2
    let rh := (rngBetween 4 (h - 2) s1).1
    let s2 := (rngBetween 4 (h - 2) s1).2
    let rx := (rngBetween (x + 1) (x + w - rw - 1) s2).1
    let s3 := (rngBetween (x + 1) (x + w - rw - 1) s2).2
    let ry := (rngBetween (y + 1) (y + h - rh - 1) s3).1
    let s4 := (rngBetween (y + 1) (y + h - rh - 1) s3).2
    let newRoom : Room := ⟨rx, ry, rw, rh, []⟩
    some (.node x y w h none none (some newRoom),
      digRoom m rx ry rw rh, rooms ++ [newRoom], s4)

/-! ## The tree builder (part_001 lines 973-996)

The source keeps an array of leaves and repeatedly passes over it,
splitting every childless leaf whose side exceeds 20 or which passes a
75% coin, until a pass makes no split.  Equivalently each leaf is split
recursively until it refuses; only the order in which the shared random
stream is consumed differs (the random source is spec-modelled, so draws
carry no further meaning).  Fuel bounds the recursion depth; `width +
height` always suffices since every split shrinks a side. -/

def buildTree : Nat → Leaf → Nat → Leaf × Nat
  | 0, l, s => (l, s)
  | fuel + 1, l, s =>
    match l with
    | .node x y w h lc rc room =>
      if w > 20 ∨ h > 20 then
        match (Leaf.node x y w h lc rc room).split s with
        | (none, s1) => (.node x y w h lc rc room, s1)
        | (some (.node x' y' w' h' (some lcn) (some rcn) room'), s1) =>
          let lres := buildTree fuel lcn s1
          let rres := buildTree fuel rcn lres.2
          (.node x' y' w' h' (some lres.1) (some rres.1) room', rres.2)
        | (some other, s1) => (other, s1)
      else
        let g := (rngBetween 0 100 s).1
        let s1 := (rngBetween 0 100 s).2
        if 25 < g then
          match (Leaf.node x y w h lc rc room).split s1 with
          | (none, s2) => (.node x y w h lc rc room, s2)
          | (some (.node x' y' w' h' (some lcn) (some rcn) room'), s2) =>
            let lres := buildTree fuel lcn s2
            let rres := buildTree fuel rcn lres.2
            (.node x' y' w' h' (some lres.1) (some rres.1) room', rres.2)
          | (some other, s2) => (other, s2)
        else (.node x y w h lc rc room, s1)

/-! ## The assembler (part_001 lines 549-674) -/

/-- The all-wall initial grid of one attempt. -/
def allWall (w h : Nat) : GameMap := ⟨w, h, fun _ _ => TILE_WALL⟩

/-- The emitted product of a successful attempt. -/
structure Dungeon where
  map : GameMap
  startPoint : Pos
  exitPoint : Pos
  coinPosition : Option Pos

/-- The free function `generateDungeon(map, random)`: build the split
tree over the whole grid, then carve rooms and corridors. -/
def generateDungeonMap (w h : Nat) (m : GameMap) (s : Nat) :
    Option (GameMap × List Room × Nat) :=
  match (buildTree (w + h) (.node 0 0 w h none none none) s).1.createRooms m []
      (buildTree (w + h) (.node 0 0 w h none none none) s).2 with
  | none => none
  | some (_, m', rooms', s') => some (m', rooms', s')

/-- `isReachable(map, start, target)`. -/
def isReachable (m : GameMap) (start target : Pos) : Bool :=
  decide (target ∈ (findReachablePositions m start.1 start.2).1)

/-- The floor tiles eligible for the coin (not start, not exit). -/
def coinCandidates (m : GameMap) (sp ep : Pos) : List Pos :=
  (((List.range' 0 m.height).product (List.range' 0 m.width)).map
      (fun q => ((q.2 : Int), (q.1 : Int)))).filter
    (fun p => decide (m.tile p.1 p.2 = TILE_FLOOR ∧ p ≠ sp ∧ p ≠ ep))

/-- `placeGoldCoin(random)`: shuffle the candidates and put a coin on the
first reachable one; silently none if no candidate is reachable. -/
def placeGoldCoin (m : GameMap) (sp ep : Pos) (s : Nat) :
    GameMap × Option Pos × Nat :=
  match ((rngShuffle s (coinCandidates m sp ep)).1).find? (fun p => isReachable m sp p) with
  | none => (m, none, (rngShuffle s (coinCandidates m sp ep)).2)
  | some p => (setTile m p TILE_COIN, some p, (rngShuffle s (coinCandidates m sp ep)).2)

/-- `GameScene.generateDungeon(seed)`: one full attempt — fresh all-wall
map, BSP carve, lava, start/exit placement (failure throws, modelled
`none`), exit tile, occasional coin. -/
def generateDungeonSeed (w h : Nat) (seed : Nat) : Option Dungeon :=
  match generateDungeonMap w h (allWall w h) (rdgInit seed) with
  | none => none
  | some (m1, _, s1) =>
    match addLava m1 s1 with
    | (m2, s2) =>
      match placeStartAndExit m2 s2 with
      | none => none
      | some (sp, ep, s3) =>
        let m3 := setTile m2 ep TILE_EXIT
        let draw := (rngBetween 1 5 s3).1
        let s4 := (rngBetween 1 5 s3).2
        if draw = 1 then
          match placeGoldCoin m3 sp ep s4 with
          | (m4, coin, _) => some ⟨m4, sp, ep, coin⟩
        else some ⟨m3, sp, ep, none⟩

/-- The retry loop body: try `n` attempts with consecutive seeds. -/
def generateAttempts (w h : Nat) : Nat → Nat → Option Dungeon
  | _, 0 => none
  | seed, n + 1 =>
    match generateDungeonSeed w h seed with
    | some d => some d
    | none => generateAttempts w h (seed + 1) n

/-- `generateDungeonWithRetries()`: up to 100 attempts with seeds
`level * 1000 + attempt`; exhaustion yields `none` (the scene falls back
to the boot screen). -/
def generateDungeonWithRetries (w h level : Nat) : Option Dungeon :=
  generateAttempts w h (level * 1000) 100

/-! ## Door and stone geometry -/

/-- The four corners of a room's rectangle. -/
def roomCorners (room : Room) : List (Nat × Nat) :=
  [(room.x, room.y), (room.x + room.width - 1, room.y),
   (room.x, room.y + room.height - 1), (room.x + room.width - 1, room.y + room.height - 1)]

/-- One-step 4-adjacency on grid coordinates. -/
def adjacent1 (a b : Nat × Nat) : Prop :=
  (b.1 = a.1 + 1 ∧ b.2 = a.2) ∨ (b.1 + 1 = a.1 ∧ b.2 = a.2) ∨
  (b.1 = a.1 ∧ b.2 = a.2 + 1) ∨ (b.1 = a.1 ∧ b.2 + 1 = a.2)

/-- Membership in the room's one-tile boundary ring. -/
def onPerimeter (room : Room) (p : Nat × Nat) : Prop :=
  (room.x ≤ p.1 ∧ p.1 ≤ room.x + room.width - 1 ∧
    room.y ≤ p.2 ∧ p.2 ≤ room.y + room.height - 1) ∧
  (p.1 = room.x ∨ p.1 = room.x + room.width - 1 ∨
    p.2 = room.y ∨ p.2 = room.y + room.height - 1)

/-- Strictly inside the room: the dug floor interior. -/
def insideRoom (room : Room) (p : Nat × Nat) : Prop :=
  room.x + 1 ≤ p.1 ∧ p.1 ≤ room.x + room.width - 2 ∧
  room.y + 1 ≤ p.2 ∧ p.2 ≤ room.y + room.height - 2

/-! ## Concrete grids used as failing inputs, counterexamples and
witnesses -/

/-- 6x3 grid: row 1 holds lava at `x = 1` and floor at `x = 2..4`; the
analyzer is started at `(3, 1)`. -/
def mC1 : GameMap := mkMap 6 3 [
  [0, 0, 0, 0, 0, 0],
  [0, 3, 1, 1, 1, 0],
  [0, 0, 0, 0, 0, 0]]

/-- 10x7 grid: the start `(3, 1)` reaches `(3, 3)` in one slide, and
`(3, 3)` reaches `(5, 3)` in one eastward slide — but the leftward slide
from `(3, 3)` terminates at the lava `(1, 3)`, so the BFS abandons
`(3, 3)` and only finds `(5, 3)` by the long detour through `(7, 1)`,
`(7, 4)` and `(5, 4)`. -/
def mC3 : GameMap := mkMap 10 7 [
  [0, 0, 0, 0, 0, 0, 0, 0, 0, 0],
  [0, 0, 0, 1, 1, 1, 1, 1, 0, 0],
  [0, 0, 0, 1, 0, 0, 0, 1, 0, 0],
  [0, 3, 1, 1, 1, 1, 0, 1, 0, 0],
  [0, 0, 0, 0, 0, 1, 1, 1, 0, 0],
  [0, 0, 0, 0, 0, 0, 0, 0, 0, 0],
  [0, 0, 0, 0, 0, 0, 0, 0, 0, 0]]

/-- 3x3 all-wall grid with lava in the centre. -/
def mC4 : GameMap := mkMap 3 3 [
  [0, 0, 0],
  [0, 3, 0],
  [0, 0, 0]]

/-- 12x7 grid with a short corridor at row 1 ending at the wall `(4, 1)`
(the first lava candidate in scan order) and a decoy corridor at row 4
supplying enough candidates for `addLava` to convert one tile. -/
def mC5 : GameMap := mkMap 12 7 [
  [0, 0, 0, 0, 0, 0, 0, 0, 0, 0, 0, 0],
  [0, 1, 1, 1, 0, 0, 0, 0, 0, 0, 0, 0],
  [0, 0, 0, 0, 0, 0, 0, 0, 0, 0, 0, 0],
  [0, 0, 0, 0, 0, 0, 0, 0, 0, 0, 0, 0],
  [0, 1, 1, 1, 1, 1, 1, 1, 1, 1, 0, 0],
  [0, 0, 0, 0, 0, 0, 0, 0, 0, 0, 0, 0],
  [0, 0, 0, 0, 0, 0, 0, 0, 0, 0, 0, 0]]

/-- 13x13 staircase grid: every slide stops after one step, so recorded
hop distances grow along the diagonal and `placeStartAndExit`
succeeds. -/
def stair : GameMap := mkMap 13 13 [
  [0, 0, 0, 0, 0, 0, 0, 0, 0, 0, 0, 0, 0],
  [0, 1, 1, 0, 0, 0, 0, 0, 0, 0, 0, 0, 0],
  [0, 0, 1, 1, 0, 0, 0, 0, 0, 0, 0, 0, 0],
  [0, 0, 0, 1, 1, 0, 0, 0, 0, 0, 0, 0, 0],
  [0, 0, 0, 0, 1, 1, 0, 0, 0, 0, 0, 0, 0],
  [0, 0, 0, 0, 0, 1, 1, 0, 0, 0, 0, 0, 0],
  [0, 0, 0, 0, 0, 0, 1, 1, 0, 0, 0, 0, 0],
  [0, 0, 0, 0, 0, 0, 0, 1, 1, 0, 0, 0, 0],
  [0, 0, 0, 0, 0, 0, 0, 0, 1, 1, 0, 0, 0],
  [0, 0, 0, 0, 0, 0, 0, 0, 0, 1, 1, 0, 0],
  [0, 0, 0, 0, 0, 0, 0, 0, 0, 0, 1, 1, 0],
  [0, 0, 0, 0, 0, 0, 0, 0, 0, 0, 0, 1, 0],
  [0, 0, 0, 0, 0, 0, 0, 0, 0, 0, 0, 0, 0]]

/-! # Theorems -/

/-! ## Slide facts -/

theorem lava_blocking : blocking TILE_LAVA := Or.inr (Or.inr rfl)

/-- The slide loop only moves forward: steps never decrease; a stop with no
extra step keeps the position; every actual landing (at least one step
beyond the carried count) is in bounds on a non-blocking tile. -/
theorem slideGo_spec (m : GameMap) (dx dy : Int) (fuel : Nat) :
    ∀ (x y : Int) (steps : Nat) (tile : Option Nat),
      steps ≤ (slideGo m dx dy fuel (x, y, steps, tile)).2.2.1 ∧
      ((slideGo m dx dy fuel (x, y, steps, tile)).2.2.1 = steps →
        (slideGo m dx dy fuel (x, y, steps, tile)).1 = x ∧
        (slideGo m dx dy fuel (x, y, steps, tile)).2.1 = y) ∧
      (steps < (slideGo m dx dy fuel (x, y, steps, tile)).2.2.1 →
        inBounds m (slideGo m dx dy fuel (x, y, steps, tile)).1
            (slideGo m dx dy fuel (x, y, steps, tile)).2.1 ∧
          ¬ blocking (m.tile (slideGo m dx dy fuel (x, y, steps, tile)).1
            (slideGo m dx dy fuel (x, y, steps, tile)).2.1)) := by
  induction fuel with
  | zero =>
    intro x y steps tile
    exact ⟨le_refl _, fun _ => ⟨rfl, rfl⟩, fun h => absurd h (lt_irrefl _)⟩
  | succ fuel ih =>
    intro x y steps tile
    simp only [slideGo]
    split
    · exact ⟨le_refl _, fun _ => ⟨rfl, rfl⟩, fun h => absurd h (lt_irrefl _)⟩
    · split
      · exact ⟨le_refl _, fun _ => ⟨rfl, rfl⟩, fun h => absurd h (lt_irrefl _)⟩
      · rename_i hin hblock
        obtain ⟨h1, h2, h3⟩ := ih (x + dx) (y + dy) (steps + 1)
          (some (m.tile (x + dx) (y + dy)))
        refine ⟨le_trans (Nat.le_succ _) h1, ?_, ?_⟩
        · intro he; omega
        · intro hlt
          rcases Nat.lt_or_ge (steps + 1)
              (slideGo m dx dy fuel
                (x + dx, y + dy, steps + 1, some (m.tile (x + dx) (y + dy)))).2.2.1 with h | h
          · exact h3 h
          · have he : (slideGo m dx dy fuel
                (x + dx, y + dy, steps + 1, some (m.tile (x + dx) (y + dy)))).2.2.1
                = steps + 1 := le_antisymm h h1
            obtain ⟨hx, hy⟩ := h2 he
            rw [hx, hy]
            exact ⟨not_not.mp hin, hblock⟩

/-- A slide that made at least one step lands in bounds on a non-blocking
tile. -/
theorem slide_land (m : GameMap) (dx dy x y : Int)
    (h : 0 < (slide m dx dy x y).2.2.1) :
    inBounds m (slide m dx dy x y).1 (slide m dx dy x y).2.1 ∧
      ¬ blocking (m.tile (slide m dx dy x y).1 (slide m dx dy x y).2.1) :=
  (slideGo_spec m dx dy _ x y 0 none).2.2 h

/-- A landing reached by at least one step is in bounds on a non-blocking
tile. -/
theorem landPos_spec (m : GameMap) (c : Pos) (dir : Int × Int)
    (h : 0 < landSteps m c dir) :
    inBounds m (landPos m c dir).1 (landPos m c dir).2 ∧
      ¬ blocking (m.tile (landPos m c dir).1 (landPos m c dir).2) :=
  (slideGo_spec m dir.1 dir.2 _ c.1 c.2 0 none).2.2 h

theorem edgeDirs_land (m : GameMap) (c : Pos) :
    ∀ (L : List (Int × Int)) (p : Pos), p ∈ edgeDirs m c L →
      inBounds m p.1 p.2 ∧ ¬ blocking (m.tile p.1 p.2) := by
  intro L
  induction L with
  | nil => intro p hp; simp [edgeDirs] at hp
  | cons dir rest ih =>
    intro p hp
    by_cases hlava : landTile m c dir = some TILE_LAVA
    · rw [edgeDirs, if_pos hlava] at hp; simp at hp
    · by_cases hsteps : 0 < landSteps m c dir
      · rw [edgeDirs, if_neg hlava, if_pos hsteps] at hp
        rcases List.mem_cons.mp hp with h | h
        · subst h; exact landPos_spec m c dir hsteps
        · exact ih p h
      · rw [edgeDirs, if_neg hlava, if_neg hsteps] at hp
        exact ih p hp

/-- Structure of one cell's direction processing: `visited`, `dists` and
`queue` are only appended to, with the same new positions (each an edge
target of `c`), and no-duplicates of `visited` is preserved. -/
theorem processDirs_structure (m : GameMap) (c : Pos) (d : Nat) :
    ∀ (L : List (Int × Int)) (st : BfsState), ∃ new : List Pos,
      (processDirs m c d L st).visited = st.visited ++ new ∧
      (processDirs m c d L st).dists = st.dists ++ new.map (fun p => (p, d + 1)) ∧
      (processDirs m c d L st).queue = st.queue ++ new.map (fun p => (p, d + 1)) ∧
      (st.visited.Nodup → (st.visited ++ new).Nodup) ∧
      (∀ p ∈ new, p ∈ edgeDirs m c L) := by
  intro L
  induction L with
  | nil =>
    intro st
    exact ⟨[], by simp [processDirs]⟩
  | cons dir rest ih =>
    intro st
    by_cases hlava : landTile m c dir = some TILE_LAVA
    · rw [processDirs, if_pos hlava]
      exact ⟨[], by simp⟩
    · by_cases hsteps : 0 < landSteps m c dir
      · by_cases hmem : landPos m c dir ∈ st.visited
        · rw [processDirs, if_neg hlava, if_pos hsteps, if_pos hmem]
          obtain ⟨new, h1, h2, h3, h4, h5⟩ := ih st
          refine ⟨new, h1, h2, h3, h4, fun p hp => ?_⟩
          rw [edgeDirs, if_neg hlava, if_pos hsteps]
          exact List.mem_cons_of_mem _ (h5 p hp)
        · rw [processDirs, if_neg hlava, if_pos hsteps, if_neg hmem]
          obtain ⟨new, h1, h2, h3, h4, h5⟩ :=
            ih ⟨st.visited ++ [landPos m c dir], st.dists ++ [(landPos m c dir, d + 1)],
                st.queue ++ [(landPos m c dir, d + 1)]⟩
          refine ⟨landPos m c dir :: new, ?_, ?_, ?_, ?_, ?_⟩
          · simpa using h1
          · simpa using h2
          · simpa using h3
          · intro hnd
            have hnd2 : (st.visited ++ [landPos m c dir]).Nodup := by
              rw [List.nodup_append]
              refine ⟨hnd, List.nodup_singleton _, ?_⟩
              intro a ha hb
              simp only [List.mem_singleton] at hb
              subst hb; exact hmem ha
            have := h4 hnd2
            simpa using this
          · intro p hp
            rw [edgeDirs, if_neg hlava, if_pos hsteps]
            rcases List.mem_cons.mp hp with h | h
            · exact h ▸ List.mem_cons_self _ _
            · exact List.mem_cons_of_mem _ (h5 p h)
      · rw [processDirs, if_neg hlava, if_neg hsteps]
        obtain ⟨new, h1, h2, h3, h4, h5⟩ := ih st
        refine ⟨new, h1, h2, h3, h4, fun p hp => ?_⟩
        rw [edgeDirs, if_neg hlava, if_neg hsteps]
        exact h5 p hp

/-- Every edge target of the processed cell ends up visited. -/
theorem processDirs_covers (m : GameMap) (c : Pos) (d : Nat) :
    ∀ (L : List (Int × Int)) (st : BfsState) (q : Pos), q ∈ edgeDirs m c L →
      q ∈ (processDirs m c d L st).visited := by
  intro L
  induction L with
  | nil => intro st q hq; simp [edgeDirs] at hq
  | cons dir rest ih =>
    intro st q hq
    by_cases hlava : landTile m c dir = some TILE_LAVA
    · rw [edgeDirs, if_pos hlava] at hq; simp at hq
    · by_cases hsteps : 0 < landSteps m c dir
      · rw [edgeDirs, if_neg hlava, if_pos hsteps] at hq
        by_cases hmem : landPos m c dir ∈ st.visited
        · rw [processDirs, if_neg hlava, if_pos hsteps, if_pos hmem]
          rcases List.mem_cons.mp hq with h | h
          · subst h
            obtain ⟨new, h1, _, _, _, _⟩ := processDirs_structure m c d rest st
            rw [h1]; exact List.mem_append_left _ hmem
          · exact ih st q h
        · rw [processDirs, if_neg hlava, if_pos hsteps, if_neg hmem]
          rcases List.mem_cons.mp hq with h | h
          · subst h
            obtain ⟨new, h1, _, _, _, _⟩ := processDirs_structure m c d rest
              ⟨st.visited ++ [landPos m c dir], st.dists ++ [(landPos m c dir, d + 1)],
               st.queue ++ [(landPos m c dir, d + 1)]⟩
            rw [h1]
            exact List.mem_append_left _ (by simp)
          · exact ih _ q h
      · rw [edgeDirs, if_neg hlava, if_neg hsteps] at hq
        rw [processDirs, if_neg hlava, if_neg hsteps]
        exact ih st q hq

/-! ## The worklist loop: invariants, termination, characterization -/

/-- Any state predicate preserved by one dequeue-and-process step is
preserved by the whole worklist run. -/
theorem bfsRun_pres (m : GameMap) (P : BfsState → Prop)
    (hstep : ∀ (c : Pos) (d : Nat) (rest : List (Pos × Nat)) (st : BfsState),
      st.queue = (c, d) :: rest → P st →
      P (processDirs m c d dirList ⟨st.visited, st.dists, rest⟩)) :
    ∀ (fuel : Nat) (st : BfsState), P st → P (bfsRun m fuel st) := by
  intro fuel
  induction fuel with
  | zero => intro st h; exact h
  | succ fuel ih =>
    intro st h
    rcases hq : st.queue with _ | ⟨⟨c, d⟩, rest⟩
    · rw [bfsRun, hq]; exact h
    · rw [bfsRun, hq]
      exact ih _ (hstep c d rest st hq h)

theorem bfsStep_inv (m : GameMap) (s : Pos) (c : Pos) (d : Nat)
    (rest : List (Pos × Nat)) (st : BfsState)
    (hq : st.queue = (c, d) :: rest) (h : BfsInv m s st) :
    BfsInv m s (processDirs m c d dirList ⟨st.visited, st.dists, rest⟩) := by
  obtain ⟨hnd, hbound, hqv, hreach, hclosed⟩ := h
  obtain ⟨new, h1, h2, h3, h4, h5⟩ :=
    processDirs_structure m c d dirList ⟨st.visited, st.dists, rest⟩
  simp only at h1 h2 h3 h4
  have hc : c ∈ st.visited := hqv (c, d) (by rw [hq]; exact List.mem_cons_self _ _)
  refine ⟨?_, ?_, ?_, ?_, ?_⟩
  · rw [h1]; exact h4 hnd
  · intro p hp
    rw [h1] at hp
    rcases List.mem_append.mp hp with hl | hr
    · exact hbound p hl
    · exact Or.inr (edgeDirs_land m c dirList p (h5 p hr))
  · intro e he
    rw [h3] at he
    rw [h1]
    rcases List.mem_append.mp he with hl | hr
    · exact List.mem_append_left _ (hqv e (by rw [hq]; exact List.mem_cons_of_mem _ hl))
    · obtain ⟨p, hp, hpe⟩ := List.mem_map.mp hr
      exact hpe ▸ List.mem_append_right _ hp
  · intro p hp
    rw [h1] at hp
    rcases List.mem_append.mp hp with hl | hr
    · exact hreach p hl
    · exact Relation.ReflTransGen.tail (hreach c hc) (h5 p hr)
  · intro p hp
    rw [h1] at hp
    rcases List.mem_append.mp hp with hl | hr
    · by_cases hpc : p = c
      · subst hpc
        exact Or.inr fun q hq' => processDirs_covers m p d dirList _ q hq'
      · rcases hclosed p hl with ⟨dd, hdd⟩ | hcl
        · rw [hq] at hdd
          rcases List.mem_cons.mp hdd with heq | hmem
          · exact absurd (congrArg Prod.fst heq) hpc
          · exact Or.inl ⟨dd, by rw [h3]; exact List.mem_append_left _ hmem⟩
        · refine Or.inr fun q hq' => ?_
          rw [h1]; exact List.mem_append_left _ (hcl q hq')
    · refine Or.inl ⟨d + 1, ?_⟩
      rw [h3]
      exact List.mem_append_right _ (List.mem_map.mpr ⟨p, hr, rfl⟩)

/-- A duplicate-free list of positions, each the start or in bounds, has
length at most `width * height + 1`. -/
theorem visited_length_le (m : GameMap) (s : Pos) (l : List Pos)
    (hnd : l.Nodup) (hb : ∀ p ∈ l, p = s ∨ inBounds m p.1 p.2) :
    l.length ≤ m.width * m.height + 1 := by
  classical
  have hsub : l.toFinset ⊆ insert s
      ((Finset.range m.width ×ˢ Finset.range m.height).image
        fun q => (((q.1 : Nat) : Int), ((q.2 : Nat) : Int))) := by
    intro p hp
    rcases hb p (List.mem_toFinset.mp hp) with hps | hin
    · exact hps ▸ Finset.mem_insert_self _ _
    · refine Finset.mem_insert_of_mem (Finset.mem_image.mpr ⟨(p.1.toNat, p.2.toNat), ?_, ?_⟩)
      · obtain ⟨hx0, hxw, hy0, hyh⟩ := hin
        refine Finset.mem_product.mpr ⟨Finset.mem_range.mpr ?_, Finset.mem_range.mpr ?_⟩
        · omega
        · omega
      · obtain ⟨hx0, _, hy0, _⟩ := hin
        have : (p.1.toNat : Int) = p.1 := Int.toNat_of_nonneg hx0
        have : (p.2.toNat : Int) = p.2 := Int.toNat_of_nonneg hy0
        simp only []
        rw [Int.toNat_of_nonneg hx0, Int.toNat_of_nonneg hy0]
  calc l.length = l.toFinset.card := (List.toFinset_card_of_nodup hnd).symm
    _ ≤ _ := Finset.card_le_card hsub
    _ ≤ _ + 1 := Finset.card_insert_le _ _
    _ ≤ m.width * m.height + 1 := by
        have := Finset.card_image_le (s := Finset.range m.width ×ˢ Finset.range m.height)
          (f := fun q => (((q.1 : Nat) : Int), ((q.2 : Nat) : Int)))
        simp only [Finset.card_product, Finset.card_range] at this
        omega

/-- With enough fuel the worklist runs its queue dry. -/
theorem bfsRun_empties (m : GameMap) (s : Pos) :
    ∀ (fuel : Nat) (st : BfsState), BfsInv m s st →
      2 * (m.width * m.height + 1 - st.visited.length) + st.queue.length ≤ fuel →
      (bfsRun m fuel st).queue = [] := by
  intro fuel
  induction fuel with
  | zero =>
    intro st _ hfuel
    have hlen : st.queue.length = 0 := by omega
    rw [bfsRun]
    exact List.length_eq_zero.mp hlen
  | succ fuel ih =>
    intro st hinv hfuel
    rcases hq : st.queue with _ | ⟨⟨c, d⟩, rest⟩
    · rw [bfsRun, hq]; exact hq
    · rw [bfsRun, hq]
      have hres := bfsStep_inv m s c d rest st hq hinv
      apply ih _ hres
      obtain ⟨new, h1, h2, h3, h4, h5⟩ :=
        processDirs_structure m c d dirList ⟨st.visited, st.dists, rest⟩
      simp only at h1 h3
      have hcap : (processDirs m c d dirList ⟨st.visited, st.dists, rest⟩).visited.length
          ≤ m.width * m.height + 1 :=
        visited_length_le m s _ hres.1 (fun p hp => (hres.2.1 p hp).imp id And.left)
      rw [h1] at hcap ⊢
      rw [h3]
      rw [hq] at hfuel
      simp only [List.length_append, List.length_map, List.length_cons] at *
      omega

theorem findReachablePositions_def (m : GameMap) (s : Pos) :
    findReachablePositions m s.1 s.2 =
      ((bfsRun m (bfsFuel m) (bfsInit s)).visited, (bfsRun m (bfsFuel m) (bfsInit s)).dists) := rfl

theorem bfsInit_inv (m : GameMap) (s : Pos) : BfsInv m s (bfsInit s) := by
  refine ⟨List.nodup_singleton _, ?_, ?_, ?_, ?_⟩
  · intro p hp
    simp only [bfsInit, List.mem_singleton] at hp
    exact Or.inl hp
  · intro e he
    simp only [bfsInit, List.mem_singleton] at he
    simp [bfsInit, he]
  · intro p hp
    simp only [bfsInit, List.mem_singleton] at hp
    exact hp ▸ Relation.ReflTransGen.refl
  · intro p hp
    simp only [bfsInit, List.mem_singleton] at hp
    exact Or.inl ⟨0, by simp [bfsInit, hp]⟩

theorem bfsFinal_inv (m : GameMap) (s : Pos) :
    BfsInv m s (bfsRun m (bfsFuel m) (bfsInit s)) :=
  bfsRun_pres m (BfsInv m s) (fun c d rest st hq h => bfsStep_inv m s c d rest st hq h)
    (bfsFuel m) (bfsInit s) (bfsInit_inv m s)

theorem bfsFinal_queue_empty (m : GameMap) (s : Pos) :
    (bfsRun m (bfsFuel m) (bfsInit s)).queue = [] := by
  apply bfsRun_empties m s (bfsFuel m) (bfsInit s) (bfsInit_inv m s)
  simp only [bfsInit, List.length_singleton, bfsFuel]
  omega

theorem bfs_start_mem (m : GameMap) (s : Pos) :
    s ∈ (bfsRun m (bfsFuel m) (bfsInit s)).visited := by
  have := bfsRun_pres m (fun st => s ∈ st.visited) ?_ (bfsFuel m) (bfsInit s) (by simp [bfsInit])
  · exact this
  · intro c d rest st hq h
    obtain ⟨new, h1, _, _, _, _⟩ :=
      processDirs_structure m c d dirList ⟨st.visited, st.dists, rest⟩
    simp only at h1
    rw [h1]
    exact List.mem_append_left _ h

/-- Characterization of the analyzer: a position is in the visited set
exactly when it is reachable from the start through the BFS's slide-move
edge relation (the direction list truncated at the first lava-terminating
direction, as the source's `break` implements). -/
theorem mem_findReachable_iff (m : GameMap) (s : Pos) (p : Pos) :
    p ∈ (findReachablePositions m s.1 s.2).1 ↔ slideReach m s p := by
  rw [findReachablePositions_def]
  constructor
  · intro hp
    exact (bfsFinal_inv m s).2.2.2.1 p hp
  · intro hr
    induction hr with
    | refl => exact bfs_start_mem m s
    | tail hab hbc ih =>
      rename_i b q
      rcases (bfsFinal_inv m s).2.2.2.2 b ih with ⟨dd, hdd⟩ | hcl
      · rw [bfsFinal_queue_empty m s] at hdd
        simp at hdd
      · exact hcl q hbc

theorem ValRel.blocking_iff {a b : Nat} (h : ValRel a b) : blocking b ↔ blocking a := by
  rcases h with h | ⟨ha, hb⟩
  · rw [h]
  · subst ha; subst hb
    simp [blocking, TILE_WALL, TILE_LAVA, TILE_STONE]

theorem ValRel.lava_mono {a b : Nat} (h : ValRel a b) (ha : a = TILE_LAVA) :
    b = TILE_LAVA := by
  rcases h with h | ⟨haw, hb⟩
  · rw [h, ha]
  · exact hb

theorem TileRel.inBounds_iff {m m' : GameMap} (h : TileRel m m') (x y : Int) :
    inBounds m' x y ↔ inBounds m x y := by
  unfold inBounds
  rw [h.1, h.2.1]

/-- Parallel slides on related maps follow the same path: the landing and
step count agree and the final examined tiles are related. -/
theorem slideGo_rel {m m' : GameMap} (h : TileRel m m') (dx dy : Int) :
    ∀ (fuel : Nat) (x y : Int) (steps : Nat) (t t' : Option Nat), OptValRel t t' →
      (slideGo m dx dy fuel (x, y, steps, t)).1 = (slideGo m' dx dy fuel (x, y, steps, t')).1 ∧
      (slideGo m dx dy fuel (x, y, steps, t)).2.1 = (slideGo m' dx dy fuel (x, y, steps, t')).2.1 ∧
      (slideGo m dx dy fuel (x, y, steps, t)).2.2.1 =
        (slideGo m' dx dy fuel (x, y, steps, t')).2.2.1 ∧
      OptValRel (slideGo m dx dy fuel (x, y, steps, t)).2.2.2
        (slideGo m' dx dy fuel (x, y, steps, t')).2.2.2 := by
  intro fuel
  induction fuel with
  | zero => intro x y steps t t' ht; exact ⟨rfl, rfl, rfl, ht⟩
  | succ fuel ih =>
    intro x y steps t t' ht
    rw [slideGo, slideGo]
    by_cases hin : inBounds m (x + dx) (y + dy)
    · rw [if_neg (not_not.mpr hin), if_neg (not_not.mpr ((h.inBounds_iff _ _).mpr hin))]
      by_cases hb : blocking (m.tile (x + dx) (y + dy))
      · rw [if_pos hb, if_pos (((h.2.2 (x + dx) (y + dy)).blocking_iff).mpr hb)]
        exact ⟨rfl, rfl, rfl, h.2.2 (x + dx) (y + dy)⟩
      · rw [if_neg hb, if_neg (fun hb' => hb (((h.2.2 (x + dx) (y + dy)).blocking_iff).mp hb'))]
        exact ih (x + dx) (y + dy) (steps + 1) _ _ (h.2.2 (x + dx) (y + dy))
    · rw [if_pos hin, if_pos (fun hc => hin ((h.inBounds_iff _ _).mp hc))]
      exact ⟨rfl, rfl, rfl, ht⟩

theorem landPos_rel {m m' : GameMap} (h : TileRel m m') (c : Pos) (dir : Int × Int) :
    landPos m c dir = landPos m' c dir := by
  obtain ⟨h1, h2, _, _⟩ := slideGo_rel h dir.1 dir.2 (m.width + m.height + 2) c.1 c.2 0 none none
      trivial
  unfold landPos slideRes slide
  rw [h.1, h.2.1]
  exact Prod.ext h1 h2

theorem landSteps_rel {m m' : GameMap} (h : TileRel m m') (c : Pos) (dir : Int × Int) :
    landSteps m c dir = landSteps m' c dir := by
  obtain ⟨_, _, h3, _⟩ := slideGo_rel h dir.1 dir.2 (m.width + m.height + 2) c.1 c.2 0 none none
      trivial
  unfold landSteps slideRes slide
  rw [h.1, h.2.1]
  exact h3

theorem landTile_rel {m m' : GameMap} (h : TileRel m m') (c : Pos) (dir : Int × Int)
    (hl : landTile m c dir = some TILE_LAVA) : landTile m' c dir = some TILE_LAVA := by
  unfold landTile slideRes slide at hl ⊢
  rw [h.1, h.2.1]
  obtain ⟨_, _, _, h4⟩ := slideGo_rel h dir.1 dir.2 (m.width + m.height + 2) c.1 c.2 0 none none
      trivial
  rw [hl] at h4
  cases hm' : (slideGo m' dir.1 dir.2 (m.width + m.height + 2) (c.1, c.2, 0, none)).2.2.2 with
  | none => rw [hm'] at h4; exact absurd h4 (by simp [OptValRel])
  | some b =>
    rw [hm'] at h4
    have hb : b = TILE_LAVA := ValRel.lava_mono h4 rfl
    rw [hb]

/-- Converting walls to lava only removes slide-move edges. -/
theorem edgeDirs_antitone {m m' : GameMap} (h : TileRel m m') (c : Pos) :
    ∀ (L : List (Int × Int)) (p : Pos), p ∈ edgeDirs m' c L → p ∈ edgeDirs m c L := by
  intro L
  induction L with
  | nil => intro p hp; exact hp
  | cons dir rest ih =>
    intro p hp
    by_cases hlava' : landTile m' c dir = some TILE_LAVA
    · rw [edgeDirs, if_pos hlava'] at hp; simp at hp
    · have hlava : ¬ landTile m c dir = some TILE_LAVA :=
        fun hc => hlava' (landTile_rel h c dir hc)
      rw [edgeDirs, if_neg hlava'] at hp
      rw [edgeDirs, if_neg hlava]
      by_cases hsteps' : 0 < landSteps m' c dir
      · have hsteps : 0 < landSteps m c dir := by rw [landSteps_rel h]; exact hsteps'
        rw [if_pos hsteps'] at hp
        rw [if_pos hsteps]
        rcases List.mem_cons.mp hp with heq | hmem
        · rw [heq, landPos_rel h c dir]; exact List.mem_cons_self _ _
        · exact List.mem_cons_of_mem _ (ih p hmem)
      · have hsteps : ¬ 0 < landSteps m c dir := by rw [landSteps_rel h]; exact hsteps'
        rw [if_neg hsteps'] at hp
        rw [if_neg hsteps]
        exact ih p hp

theorem slideReach_antitone {m m' : GameMap} (h : TileRel m m') (s p : Pos)
    (hr : slideReach m' s p) : slideReach m s p :=
  Relation.ReflTransGen.mono (fun a b hb => edgeDirs_antitone h a dirList b hb) hr

/-- Turning walls into lava never adds reachability: anything the analyzer
visits on the modified map it already visited on the original. -/
theorem visited_antitone {m m' : GameMap} (h : TileRel m m') (s p : Pos)
    (hp : p ∈ (findReachablePositions m' s.1 s.2).1) :
    p ∈ (findReachablePositions m s.1 s.2).1 :=
  (mem_findReachable_iff m s p).mpr
    (slideReach_antitone h s p ((mem_findReachable_iff m' s p).mp hp))

theorem rngBetween_bounds (lo hi s : Nat) (h : lo ≤ hi) :
    lo ≤ (rngBetween lo hi s).1 ∧ (rngBetween lo hi s).1 ≤ hi := by
  refine ⟨Nat.le_add_right _ _, ?_⟩
  have hmod : rngNext s % (hi + 1 - lo) < hi + 1 - lo := Nat.mod_lt _ (by omega)
  simp only [rngBetween]
  omega

theorem getD_mem_of_lt {α : Type} (l : List α) (d : α) (j : Nat) (hj : j < l.length) :
    l.getD j d ∈ l := by
  rw [List.getD_eq_getElem?_getD, List.getElem?_eq_getElem hj]
  exact List.getElem_mem hj

theorem getD_cons_eraseIdx_perm {α : Type} :
    ∀ (l : List α) (d : α) (j : Nat), j < l.length →
      (l.getD j d :: l.eraseIdx j).Perm l := by
  intro l
  induction l with
  | nil => intro d j hj; simp at hj
  | cons x xs ih =>
    intro d j hj
    cases j with
    | zero => simp
    | succ j =>
      simp only [List.getD_cons_succ, List.eraseIdx_cons_succ]
      have hj' : j < xs.length := by simpa using hj
      have h1 : (xs.getD j d :: x :: xs.eraseIdx j).Perm
          (x :: xs.getD j d :: xs.eraseIdx j) := List.Perm.swap _ _ _
      have h2 : (x :: xs.getD j d :: xs.eraseIdx j).Perm (x :: xs) :=
        List.Perm.cons x (ih d j hj')
      exact h1.trans h2

theorem rngShuffleGo_perm {α : Type} :
    ∀ (n : Nat) (s : Nat) (l : List α), l.length ≤ n → ((rngShuffleGo n s l).1).Perm l := by
  intro n
  induction n with
  | zero =>
    intro s' l hl
    rw [Nat.le_zero] at hl
    rw [List.length_eq_zero.mp hl, rngShuffleGo]
  | succ n ih =>
    intro s l hl
    cases l with
    | nil => rw [rngShuffleGo]
    | cons x xs =>
      rw [rngShuffleGo]
      have hj : rngNext s % (x :: xs).length < (x :: xs).length :=
        Nat.mod_lt _ (by simp)
      have herase : ((x :: xs).eraseIdx (rngNext s % (x :: xs).length)).length ≤ n := by
        rw [List.length_eraseIdx, if_pos hj]
        simp only [List.length_cons] at hl ⊢
        omega
      exact List.Perm.trans
        (List.Perm.cons _ (ih (rngNext s) _ herase))
        (getD_cons_eraseIdx_perm (x :: xs) x _ hj)

theorem rngShuffle_perm {α : Type} (s : Nat) (l : List α) :
    ((rngShuffle s l).1).Perm l :=
  rngShuffleGo_perm l.length s l le_rfl

theorem rngPick_mem {α : Type} (s : Nat) (l : List α) (a : α) (s' : Nat)
    (h : rngPick s l = some (a, s')) : a ∈ l := by
  cases l with
  | nil => simp [rngPick] at h
  | cons x xs =>
    simp only [rngPick, Option.some_inj] at h
    injection h with h1 h2
    subst h1
    exact getD_mem_of_lt _ _ _ (Nat.mod_lt _ (by simp))

theorem setTile_tile (m : GameMap) (p : Pos) (v : Nat) (x y : Int) :
    (setTile m p v).tile x y = if (x, y) = p then v else m.tile x y := by
  simp only [setTile]
  by_cases h : (x, y) = p
  · rw [if_pos h, if_pos ⟨congrArg Prod.fst h, congrArg Prod.snd h⟩]
  · rw [if_neg h, if_neg]
    intro ⟨h1, h2⟩
    exact h (Prod.ext h1 h2)

theorem foldl_setTile_tile (v : Nat) :
    ∀ (l : List Pos) (m : GameMap) (x y : Int),
      ((l.foldl (fun acc p => setTile acc p v) m).tile x y) =
        if (x, y) ∈ l then v else m.tile x y := by
  intro l
  induction l with
  | nil => intro m x y; simp
  | cons p l' ih =>
    intro m x y
    rw [List.foldl_cons, ih]
    by_cases hmem : (x, y) ∈ l'
    · rw [if_pos hmem, if_pos (List.mem_cons_of_mem _ hmem)]
    · rw [if_neg hmem, setTile_tile]
      by_cases hp : (x, y) = p
      · rw [if_pos hp, if_pos (hp ▸ List.mem_cons_self _ _)]
      · rw [if_neg hp, if_neg]
        intro hc
        rcases List.mem_cons.mp hc with h | h
        · exact hp h
        · exact hmem h

theorem foldl_setTile_dims (v : Nat) :
    ∀ (l : List Pos) (m : GameMap),
      (l.foldl (fun acc p => setTile acc p v) m).width = m.width ∧
      (l.foldl (fun acc p => setTile acc p v) m).height = m.height := by
  intro l
  induction l with
  | nil => intro m; exact ⟨rfl, rfl⟩
  | cons p l' ih => intro m; exact ih (setTile m p v)

theorem lavaCandidates_mem (m : GameMap) (p : Pos) (hp : p ∈ lavaCandidates m) :
    m.tile p.1 p.2 = TILE_WALL ∧ hasFloorNeighbor m p.1 p.2 ∧
      (∃ a b : Nat, p = ((a : Int), (b : Int)) ∧
        1 ≤ a ∧ a ≤ m.width - 2 ∧ 1 ≤ b ∧ b ≤ m.height - 2) := by
  unfold lavaCandidates at hp
  have hfil := List.of_mem_filter hp
  have hmem := List.mem_of_mem_filter hp
  rw [decide_eq_true_iff] at hfil
  refine ⟨hfil.1, hfil.2, ?_⟩
  obtain ⟨q, hq, hqe⟩ := List.mem_map.mp hmem
  obtain ⟨hq1, hq2⟩ := List.pair_mem_product.mp hq
  rw [List.mem_range'] at hq1 hq2
  exact ⟨q.2, q.1, hqe.symm, by omega, by omega, by omega, by omega⟩

theorem lavaCandidates_nodup (m : GameMap) : (lavaCandidates m).Nodup := by
  apply List.Nodup.filter
  apply List.Nodup.map
  · intro a b hab
    have h1 : ((a.2 : Int), (a.1 : Int)).1 = ((b.2 : Int), (b.1 : Int)).1 :=
      congrArg Prod.fst hab
    have h2 : ((a.2 : Int), (a.1 : Int)).2 = ((b.2 : Int), (b.1 : Int)).2 :=
      congrArg Prod.snd hab
    simp only [Int.natCast_inj] at h1 h2
    exact Prod.ext h2 h1
  · exact List.Nodup.product (List.nodup_range' _ _) (List.nodup_range' _ _)

/-- `addLava` only turns walls into lava: the resulting map is `TileRel`-
related to the original. -/
theorem addLava_tileRel (m : GameMap) (s : Nat) : TileRel m (addLava m s).1 := by
  obtain ⟨hw, hh⟩ := foldl_setTile_dims TILE_LAVA
    (((rngShuffle s (lavaCandidates m)).1).take ((lavaCandidates m).length * 5 / 100)) m
  refine ⟨hw, hh, ?_⟩
  intro x y
  show ValRel (m.tile x y) ((addLava m s).1.tile x y)
  unfold addLava
  rw [foldl_setTile_tile]
  split
  · rename_i hmem
    have hcand : (x, y) ∈ lavaCandidates m :=
      (rngShuffle_perm s (lavaCandidates m)).mem_iff.mp
        (List.mem_of_mem_take hmem)
    exact Or.inr ⟨(lavaCandidates_mem m _ hcand).1, rfl⟩
  · exact Or.inl rfl

theorem mem_gridFinset (m : GameMap) (p : Pos) :
    p ∈ gridFinset m ↔ inBounds m p.1 p.2 := by
  constructor
  · intro hp
    obtain ⟨q, hq, hqe⟩ := Finset.mem_image.mp hp
    obtain ⟨h1, h2⟩ := Finset.mem_product.mp hq
    rw [Finset.mem_range] at h1 h2
    subst hqe
    refine ⟨Int.natCast_nonneg _, ?_, Int.natCast_nonneg _, ?_⟩ <;>
      simp only [] <;> exact_mod_cast (by assumption)
  · intro ⟨hx0, hxw, hy0, hyh⟩
    refine Finset.mem_image.mpr ⟨(p.1.toNat, p.2.toNat), ?_, ?_⟩
    · refine Finset.mem_product.mpr ⟨Finset.mem_range.mpr ?_, Finset.mem_range.mpr ?_⟩ <;> omega
    · simp only []
      rw [Int.toNat_of_nonneg hx0, Int.toNat_of_nonneg hy0]

theorem lavaCandidates_inBounds (m : GameMap) (p : Pos) (hp : p ∈ lavaCandidates m) :
    inBounds m p.1 p.2 := by
  obtain ⟨_, _, a, b, hpe, ha1, ha2, hb1, hb2⟩ := lavaCandidates_mem m p hp
  subst hpe
  refine ⟨Int.natCast_nonneg _, ?_, Int.natCast_nonneg _, ?_⟩ <;>
    · simp only [Int.ofNat_lt]
      exact_mod_cast (by omega : _ < _)

/-- `addLava` changes exactly `floor(5%)` of the candidate count, every
change being a candidate wall turned to lava; everything else is
untouched. -/
theorem addLava_frame (m : GameMap) (s : Nat) :
    ((gridFinset m).filter
        (fun p => (addLava m s).1.tile p.1 p.2 ≠ m.tile p.1 p.2)).card
      = (lavaCandidates m).length * 5 / 100 ∧
    (∀ x y : Int, (addLava m s).1.tile x y ≠ m.tile x y →
      ((x, y) ∈ lavaCandidates m ∧ m.tile x y = TILE_WALL ∧
        (addLava m s).1.tile x y = TILE_LAVA)) ∧
    (addLava m s).1.width = m.width ∧ (addLava m s).1.height = m.height := by
  have hperm : ((rngShuffle s (lavaCandidates m)).1).Perm (lavaCandidates m) :=
    rngShuffle_perm s (lavaCandidates m)
  have hshnd : ((rngShuffle s (lavaCandidates m)).1).Nodup :=
    hperm.nodup_iff.mpr (lavaCandidates_nodup m)
  have htile : ∀ x y : Int, (addLava m s).1.tile x y =
      if (x, y) ∈ ((rngShuffle s (lavaCandidates m)).1).take
          ((lavaCandidates m).length * 5 / 100) then TILE_LAVA else m.tile x y := by
    intro x y
    unfold addLava
    exact foldl_setTile_tile TILE_LAVA _ m x y
  have hmem_cand : ∀ p : Pos, p ∈ ((rngShuffle s (lavaCandidates m)).1).take
      ((lavaCandidates m).length * 5 / 100) → p ∈ lavaCandidates m :=
    fun p hp => hperm.mem_iff.mp (List.mem_of_mem_take hp)
  have hchanged : ∀ x y : Int, (addLava m s).1.tile x y ≠ m.tile x y ↔
      (x, y) ∈ ((rngShuffle s (lavaCandidates m)).1).take
        ((lavaCandidates m).length * 5 / 100) := by
    intro x y
    rw [htile x y]
    constructor
    · intro hne
      by_contra hmem
      rw [if_neg hmem] at hne
      exact hne rfl
    · intro hmem
      rw [if_pos hmem]
      have hw := (lavaCandidates_mem m _ (hmem_cand _ hmem)).1
      rw [hw]
      simp [TILE_LAVA, TILE_WALL]
  refine ⟨?_, ?_, (foldl_setTile_dims TILE_LAVA _ m).1, (foldl_setTile_dims TILE_LAVA _ m).2⟩
  · have hset : (gridFinset m).filter
        (fun p => (addLava m s).1.tile p.1 p.2 ≠ m.tile p.1 p.2) =
        (((rngShuffle s (lavaCandidates m)).1).take
          ((lavaCandidates m).length * 5 / 100)).toFinset := by
      ext p
      rw [Finset.mem_filter, List.mem_toFinset, mem_gridFinset]
      constructor
      · intro ⟨_, hch⟩
        exact (hchanged p.1 p.2).mp hch
      · intro hmem
        exact ⟨lavaCandidates_inBounds m p (hmem_cand p hmem),
          (hchanged p.1 p.2).mpr hmem⟩
    rw [hset, List.toFinset_card_of_nodup
      (hshnd.sublist (List.take_sublist _ _) : _)]
    rw [List.length_take]
    have hlen : ((rngShuffle s (lavaCandidates m)).1).length = (lavaCandidates m).length :=
      hperm.length_eq
    rw [hlen]
    exact Nat.min_eq_left (Nat.div_le_of_le_mul (by omega))
  · intro x y hne
    have hmem := (hchanged x y).mp hne
    refine ⟨hmem_cand _ hmem, (lavaCandidates_mem m _ (hmem_cand _ hmem)).1, ?_⟩
    rw [htile x y, if_pos hmem]

theorem assocFind_getD_eq_some (l : List (Pos × Nat)) (p : Pos) (v : Nat)
    (hv : (assocFind l p).getD 0 = v) (h5 : 5 ≤ v) : assocFind l p = some v := by
  cases h : assocFind l p with
  | none => rw [h] at hv; simp at hv; omega
  | some a => rw [h] at hv; simp at hv; rw [hv]

/-- Elements of the scan's furthest list all sit at the final maximum
distance, differ from the start, and come from the accumulator or the
scanned list. -/
theorem furthestScan_fur (dists : List (Pos × Nat)) (start : Pos) :
    ∀ (L : List Pos) (maxD : Nat) (fur : List Pos),
      (∀ p ∈ fur, (assocFind dists p).getD 0 = maxD ∧ p ≠ start) →
      ∀ p ∈ (furthestScan dists start L (maxD, fur)).2,
        (assocFind dists p).getD 0 = (furthestScan dists start L (maxD, fur)).1 ∧
        p ≠ start ∧ (p ∈ fur ∨ p ∈ L) := by
  intro L
  induction L with
  | nil =>
    intro maxD fur hfur p hp
    rw [furthestScan] at hp ⊢
    exact ⟨(hfur p hp).1, (hfur p hp).2, Or.inl hp⟩
  | cons q rest ih =>
    intro maxD fur hfur p hp
    rw [furthestScan] at hp ⊢
    by_cases hg : 5 ≤ (assocFind dists q).getD 0 ∧ q ≠ start
    · rw [if_pos hg] at hp ⊢
      by_cases hlt : maxD < (assocFind dists q).getD 0
      · rw [if_pos hlt] at hp ⊢
        have hfur' : ∀ r ∈ [q], (assocFind dists r).getD 0 = (assocFind dists q).getD 0 ∧
            r ≠ start := by
          intro r hr
          rw [List.mem_singleton] at hr
          exact ⟨by rw [hr], hr ▸ hg.2⟩
        obtain ⟨h1, h2, h3⟩ := ih _ _ hfur' p hp
        refine ⟨h1, h2, ?_⟩
        rcases h3 with h | h
        · rw [List.mem_singleton] at h
          exact Or.inr (h ▸ List.mem_cons_self _ _)
        · exact Or.inr (List.mem_cons_of_mem _ h)
      · rw [if_neg hlt] at hp ⊢
        by_cases heq : (assocFind dists q).getD 0 = maxD
        · rw [if_pos heq] at hp ⊢
          have hfur' : ∀ r ∈ fur ++ [q], (assocFind dists r).getD 0 = maxD ∧ r ≠ start := by
            intro r hr
            rcases List.mem_append.mp hr with h | h
            · exact hfur r h
            · rw [List.mem_singleton] at h
              exact ⟨h ▸ heq, h ▸ hg.2⟩
          obtain ⟨h1, h2, h3⟩ := ih _ _ hfur' p hp
          refine ⟨h1, h2, ?_⟩
          rcases h3 with h | h
          · rcases List.mem_append.mp h with h' | h'
            · exact Or.inl h'
            · rw [List.mem_singleton] at h'
              exact Or.inr (h' ▸ List.mem_cons_self _ _)
          · exact Or.inr (List.mem_cons_of_mem _ h)
        · rw [if_neg heq] at hp ⊢
          obtain ⟨h1, h2, h3⟩ := ih _ _ hfur p hp
          exact ⟨h1, h2, h3.imp id (List.mem_cons_of_mem _)⟩
    · rw [if_neg hg] at hp ⊢
      obtain ⟨h1, h2, h3⟩ := ih _ _ hfur p hp
      exact ⟨h1, h2, h3.imp id (List.mem_cons_of_mem _)⟩

/-- The scan's final maximum dominates the starting accumulator and the
recorded distance of every qualifying scanned tile. -/
theorem furthestScan_max (dists : List (Pos × Nat)) (start : Pos) :
    ∀ (L : List Pos) (maxD : Nat) (fur : List Pos),
      maxD ≤ (furthestScan dists start L (maxD, fur)).1 ∧
      ∀ p ∈ L, p ≠ start → 5 ≤ (assocFind dists p).getD 0 →
        (assocFind dists p).getD 0 ≤ (furthestScan dists start L (maxD, fur)).1 := by
  intro L
  induction L with
  | nil =>
    intro maxD fur
    rw [furthestScan]
    exact ⟨le_refl _, fun p hp => absurd hp (List.not_mem_nil _)⟩
  | cons q rest ih =>
    intro maxD fur
    rw [furthestScan]
    by_cases hg : 5 ≤ (assocFind dists q).getD 0 ∧ q ≠ start
    · rw [if_pos hg]
      by_cases hlt : maxD < (assocFind dists q).getD 0
      · rw [if_pos hlt]
        obtain ⟨hm, hall⟩ := ih ((assocFind dists q).getD 0) [q]
        refine ⟨le_trans (le_of_lt hlt) hm, ?_⟩
        intro p hp hps hp5
        rcases List.mem_cons.mp hp with h | h
        · exact h ▸ hm
        · exact hall p h hps hp5
      · rw [if_neg hlt]
        by_cases heq : (assocFind dists q).getD 0 = maxD
        · rw [if_pos heq]
          obtain ⟨hm, hall⟩ := ih maxD (fur ++ [q])
          refine ⟨hm, ?_⟩
          intro p hp hps hp5
          rcases List.mem_cons.mp hp with h | h
          · subst h; rw [heq]; exact hm
          · exact hall p h hps hp5
        · rw [if_neg heq]
          obtain ⟨hm, hall⟩ := ih maxD fur
          refine ⟨hm, ?_⟩
          intro p hp hps hp5
          rcases List.mem_cons.mp hp with h | h
          · subst h; omega
          · exact hall p h hps hp5
    · rw [if_neg hg]
      obtain ⟨hm, hall⟩ := ih maxD fur
      refine ⟨hm, ?_⟩
      intro p hp hps hp5
      rcases List.mem_cons.mp hp with h | h
      · subst h; exact absurd ⟨hp5, hps⟩ hg
      · exact hall p h hps hp5

/-- A scan over tiles none of which qualifies leaves the accumulator
untouched. -/
theorem furthestScan_none (dists : List (Pos × Nat)) (start : Pos) :
    ∀ (L : List Pos) (maxD : Nat) (fur : List Pos),
      (∀ p ∈ L, p ≠ start → (assocFind dists p).getD 0 < 5) →
      furthestScan dists start L (maxD, fur) = (maxD, fur) := by
  intro L
  induction L with
  | nil => intro maxD fur _; rw [furthestScan]
  | cons q rest ih =>
    intro maxD fur hall
    rw [furthestScan]
    have hg : ¬ (5 ≤ (assocFind dists q).getD 0 ∧ q ≠ start) := by
      intro ⟨h5, hqs⟩
      exact absurd (hall q (List.mem_cons_self _ _) hqs) (by omega)
    rw [if_neg hg]
    exact ih maxD fur (fun p hp => hall p (List.mem_cons_of_mem _ hp))

/-- The start's recorded distance is `0` (its entry heads the distance
map). -/
theorem bfs_dists_start (m : GameMap) (s : Pos) :
    assocFind (bfsRun m (bfsFuel m) (bfsInit s)).dists s = some 0 := by
  have hhead : ∃ tl, (bfsRun m (bfsFuel m) (bfsInit s)).dists = (s, 0) :: tl := by
    apply bfsRun_pres m (fun st => ∃ tl, st.dists = (s, 0) :: tl)
    · intro c d rest st hq ⟨tl, htl⟩
      obtain ⟨new, _, h2, _, _, _⟩ :=
        processDirs_structure m c d dirList ⟨st.visited, st.dists, rest⟩
      simp only at h2
      exact ⟨tl ++ new.map (fun p => (p, d + 1)), by rw [h2, htl]; simp⟩
    · exact ⟨[], rfl⟩
  obtain ⟨tl, htl⟩ := hhead
  rw [htl, assocFind, if_pos rfl]

/-- On a shuffle putting `start` first, `placeStartAndExit` reduces to the
guard-and-pick tail. -/
theorem placeStartAndExit_eq (m : GameMap) (s : Nat) (start : Pos) (rest : List Pos)
    (hsh : (rngShuffle s (floorTiles m)).1 = start :: rest) :
    placeStartAndExit m s =
      if (psaeScan m start).1 < 5 ∨ (psaeScan m start).2 = [] then none
      else
        match rngPick (rngShuffle s (floorTiles m)).2 (psaeScan m start).2 with
        | none => none
        | some (e, s2) => some (start, e, s2) := by
  unfold placeStartAndExit
  rw [hsh]

/-- Success of `placeStartAndExit` yields an exit in the analyzer's
visited set, at recorded distance at least `5`, maximal among all
recorded distances; and when no visited non-start tile records distance
at least `5`, the placement returns failure. -/
theorem placeStartAndExit_spec (m : GameMap) (s : Nat) :
    (∀ (start e : Pos) (s2 : Nat), placeStartAndExit m s = some (start, e, s2) →
      e ∈ (findReachablePositions m start.1 start.2).1 ∧
      ∃ de : Nat, assocFind (findReachablePositions m start.1 start.2).2 e = some de ∧
        5 ≤ de ∧
        ∀ p ∈ (findReachablePositions m start.1 start.2).1,
          ∀ dp : Nat, assocFind (findReachablePositions m start.1 start.2).2 p = some dp →
            dp ≤ de) ∧
    (∀ (start : Pos) (rest : List Pos), (rngShuffle s (floorTiles m)).1 = start :: rest →
      (∀ p ∈ (findReachablePositions m start.1 start.2).1, p ≠ start →
        ∀ dp : Nat, assocFind (findReachablePositions m start.1 start.2).2 p = some dp →
          dp < 5) →
      placeStartAndExit m s = none) := by
  constructor
  · intro start e s2 hsucc
    rcases hsh : (rngShuffle s (floorTiles m)).1 with _ | ⟨st0, tl0⟩
    · unfold placeStartAndExit at hsucc
      rw [hsh] at hsucc
      exact absurd hsucc (by simp)
    · rw [placeStartAndExit_eq m s st0 tl0 hsh] at hsucc
      by_cases hguard : (psaeScan m st0).1 < 5 ∨ (psaeScan m st0).2 = []
      · rw [if_pos hguard] at hsucc; exact absurd hsucc (by simp)
      · rw [if_neg hguard] at hsucc
        rcases hpick : rngPick (rngShuffle s (floorTiles m)).2 (psaeScan m st0).2 with
          _ | ⟨e', s2'⟩
        · rw [hpick] at hsucc; exact absurd hsucc (by simp)
        · rw [hpick] at hsucc
          simp only [Option.some_inj] at hsucc
          injection hsucc with h1 h2
          injection h2 with h2 h3
          subst h1; subst h2; subst h3
          push_neg at hguard
          obtain ⟨hmax5, hfurne⟩ := hguard
          have hemem : e' ∈ (psaeScan m st0).2 := rngPick_mem _ _ _ _ hpick
          have hfur := furthestScan_fur (findReachablePositions m st0.1 st0.2).2 st0
            (findReachablePositions m st0.1 st0.2).1 0 []
            (fun p hp => absurd hp (List.not_mem_nil _)) e' hemem
          obtain ⟨hde, hens, hmem⟩ := hfur
          have hevis : e' ∈ (findReachablePositions m st0.1 st0.2).1 := by
            rcases hmem with h | h
            · exact absurd h (List.not_mem_nil _)
            · exact h
          have h5max : 5 ≤ (psaeScan m st0).1 := by omega
          refine ⟨hevis, (psaeScan m st0).1,
            assocFind_getD_eq_some _ _ _ hde h5max, h5max, ?_⟩
          intro p hp dp hdp
          by_cases hps : p = st0
          · subst hps
            rw [findReachablePositions_def, bfs_dists_start] at hdp
            simp only [Option.some_inj] at hdp
            omega
          · by_cases hp5 : 5 ≤ dp
            · have hgetD : (assocFind (findReachablePositions m st0.1 st0.2).2 p).getD 0
                  = dp := by rw [hdp]; rfl
              have := (furthestScan_max (findReachablePositions m st0.1 st0.2).2 st0
                (findReachablePositions m st0.1 st0.2).1 0 []).2 p hp hps
                (by rw [hgetD]; exact hp5)
              rw [hgetD] at this
              exact this
            · omega
  · intro start rest hsh hnone
    have hscan : psaeScan m start = (0, []) := by
      unfold psaeScan
      apply furthestScan_none
      intro p hp hps
      cases hfind : assocFind (findReachablePositions m start.1 start.2).2 p with
      | none => simp
      | some dp =>
        simp only [Option.getD_some]
        exact hnone p hp hps dp hfind
    rw [placeStartAndExit_eq m s start rest hsh,
      if_pos (Or.inl (by rw [hscan]; omega))]

/-- Characterization of the bounded retry loop: `none` exactly when every
seed in the window fails; `some d` exactly when some attempt succeeds with
`d` and all earlier attempts fail. -/
theorem generateAttempts_spec (w h : Nat) :
    ∀ (n seed : Nat),
      (generateAttempts w h seed n = none ↔
        ∀ i, i < n → generateDungeonSeed w h (seed + i) = none) ∧
      (∀ d : Dungeon, generateAttempts w h seed n = some d ↔
        ∃ i, i < n ∧ generateDungeonSeed w h (seed + i) = some d ∧
          ∀ j, j < i → generateDungeonSeed w h (seed + j) = none) := by
  intro n
  induction n with
  | zero =>
    intro seed
    constructor
    · simp [generateAttempts]
    · intro d
      simp [generateAttempts]
  | succ n ih =>
    intro seed
    rcases hg : generateDungeonSeed w h seed with _ | d0
    · have hred : generateAttempts w h seed (n + 1) = generateAttempts w h (seed + 1) n := by
        rw [generateAttempts, hg]
      obtain ⟨ihn, ihs⟩ := ih (seed + 1)
      constructor
      · rw [hred, ihn]
        constructor
        · intro hall i hi
          cases i with
          | zero => simpa using hg
          | succ k =>
            have := hall k (by omega)
            rw [show seed + 1 + k = seed + (k + 1) by omega] at this
            exact this
        · intro hall i hi
          have := hall (i + 1) (by omega)
          rw [show seed + (i + 1) = seed + 1 + i by omega] at this
          exact this
      · intro d
        rw [hred, ihs d]
        constructor
        · intro ⟨i, hi, hsome, hbefore⟩
          refine ⟨i + 1, by omega, ?_, ?_⟩
          · rw [show seed + (i + 1) = seed + 1 + i by omega]
            exact hsome
          · intro j hj
            cases j with
            | zero => simpa using hg
            | succ k =>
              have := hbefore k (by omega)
              rw [show seed + 1 + k = seed + (k + 1) by omega] at this
              exact this
        · intro ⟨i, hi, hsome, hbefore⟩
          cases i with
          | zero =>
            rw [Nat.add_zero] at hsome
            rw [hsome] at hg
            exact absurd hg (by simp)
          | succ k =>
            refine ⟨k, by omega, ?_, ?_⟩
            · rw [show seed + 1 + k = seed + (k + 1) by omega]
              exact hsome
            · intro j hj
              have := hbefore (j + 1) (by omega)
              rw [show seed + (j + 1) = seed + 1 + j by omega] at this
              exact this
    · have hred : generateAttempts w h seed (n + 1) = some d0 := by
        rw [generateAttempts, hg]
      constructor
      · rw [hred]
        constructor
        · intro hc; exact absurd hc (by simp)
        · intro hall
          have := hall 0 (by omega)
          rw [Nat.add_zero, hg] at this
          exact absurd this (by simp)
      · intro d
        rw [hred]
        constructor
        · intro hd
          refine ⟨0, by omega, ?_, by omega⟩
          rw [Nat.add_zero, hg, hd]
        · intro ⟨i, hi, hsome, hbefore⟩
          cases i with
          | zero =>
            rw [Nat.add_zero, hg] at hsome
            injection hsome with h'
            rw [h']
          | succ k =>
            have := hbefore 0 (by omega)
            rw [Nat.add_zero, hg] at this
            exact absurd this (by simp)

/-- Every door candidate of a room at least 4x4 avoids the corners, sits
on the perimeter one step from a corner, and its stone cell is strictly
inside the room one step from the door. -/
theorem doorPositions_spec (room : Room) (h4w : 4 ≤ room.width) (h4h : 4 ≤ room.height)
    (door : Nat × Nat) (hmem : door ∈ doorPositions room) :
    ¬ isCorner room door ∧ onPerimeter room door ∧
    (∃ c ∈ roomCorners room, adjacent1 c door) ∧
    insideRoom room (stonePos room door) ∧ adjacent1 door (stonePos room door) := by
  simp only [doorPositions, List.mem_cons, List.not_mem_nil, or_false] at hmem
  rcases hmem with h | h | h | h | h | h | h | h <;> subst h <;>
    refine ⟨?_, ?_, ?_, ?_, ?_⟩ <;>
    simp only [isCorner, onPerimeter, insideRoom, adjacent1, stonePos, roomCorners,
      List.mem_cons, List.not_mem_nil, or_false, exists_eq_or_imp, exists_eq_left,
      true_or, or_true, true_and, and_true] <;>
    first
      | trivial
      | omega
      | (split_ifs <;> omega)

/-- The door `getDoorPosition` returns is one of the eight candidates. -/
theorem getDoorPosition_mem (room : Room) (s : Nat) :
    (getDoorPosition room s).1 ∈ doorPositions room := by
  unfold getDoorPosition
  simp only []
  exact getD_mem_of_lt _ _ _ (by
    rw [show (doorPositions room).length = 8 from rfl]
    exact Nat.mod_lt _ (by omega))

/-! ## The claims -/

/-- C1: the claim says rejecting a lava-terminating direction does not
stop the remaining directions of the same cell from being explored, so
the visited set is closed under valid slide moves.  The source's `break`
(part_001 line 1173) exits the whole direction loop instead: on `mC1`,
the first (leftward) slide from the start `(3, 1)` terminates at the lava
`(1, 1)`, so the eastward slide is never tried and `(4, 1)` — one valid
slide away — is missing from the returned visited set, which is just the
start. -/
theorem c1_break_aborts_directions :
    validSlideMove mC1 (3, 1) (4, 1) ∧
    ((4, 1) : Pos) ∉ (findReachablePositions mC1 3 1).1 ∧
    (findReachablePositions mC1 3 1).1 = [(3, 1)] := by decide

/-- C2: a successful `placeStartAndExit` returns an exit inside the
analyzer's visited set whose recorded hop distance is at least 5 and
maximal among all recorded distances, and returns failure when no visited
non-start tile records distance at least 5. -/
theorem c2_exit_reachable_min5_maximal (m : GameMap) (s : Nat) :
    (∀ (start e : Pos) (s2 : Nat), placeStartAndExit m s = some (start, e, s2) →
      e ∈ (findReachablePositions m start.1 start.2).1 ∧
      ∃ de : Nat, assocFind (findReachablePositions m start.1 start.2).2 e = some de ∧
        5 ≤ de ∧
        ∀ p ∈ (findReachablePositions m start.1 start.2).1,
          ∀ dp : Nat, assocFind (findReachablePositions m start.1 start.2).2 p = some dp →
            dp ≤ de) ∧
    (∀ (start : Pos) (rest : List Pos), (rngShuffle s (floorTiles m)).1 = start :: rest →
      (∀ p ∈ (findReachablePositions m start.1 start.2).1, p ≠ start →
        ∀ dp : Nat, assocFind (findReachablePositions m start.1 start.2).2 p = some dp →
          dp < 5) →
      placeStartAndExit m s = none) :=
  placeStartAndExit_spec m s

/-- C2 at a concrete input: on the staircase grid with generator state 0
the placement succeeds with start `(10, 10)` and exit `(1, 1)`, which is
therefore in the visited set computed from that start. -/
theorem c2_exit_witness :
    ((1, 1) : Pos) ∈ (findReachablePositions stair 10 10).1 :=
  ((c2_exit_reachable_min5_maximal stair 0).1 (10, 10) (1, 1) 2684337210 (by decide)).1

/-- C3: the claim says a visited coordinate's recorded distance is the
minimum number of slide moves from the start.  On `mC3` the tile `(5, 3)`
is two valid slide moves from the start `(3, 1)` (down to `(3, 3)`, then
east to `(5, 3)`), but the `break` on the lava-terminating westward slide
abandons `(3, 3)` before its eastward slide, so the BFS records `(5, 3)`
at distance 4 via a detour. -/
theorem c3_distance_not_minimal :
    assocFind (findReachablePositions mC3 3 1).2 (5, 3) = some 4 ∧
    validSlideMove mC3 (3, 1) (3, 3) ∧ validSlideMove mC3 (3, 3) (5, 3) ∧
    ((5, 3) : Pos) ∈ (findReachablePositions mC3 3 1).1 := by decide

/-- C4 counterexample: a start coordinate sitting on a `Hazard` tile is
itself recorded in the visited set, so the claim's universal statement
("no coordinate in the visited set has tile kind Hazard, for every grid
and start coordinate") fails on `mC4` started at its lava centre. -/
theorem c4_counterexample_start_on_hazard :
    ((1, 1) : Pos) ∈ (findReachablePositions mC4 1 1).1 ∧
    mC4.tile 1 1 = TILE_LAVA := by decide

/-- C4 (amended): every visited coordinate other than the start is a
slide landing, which always sits on a non-blocking tile — never on
lava. -/
theorem c4_nonstart_visited_never_hazard (m : GameMap) (sx sy : Int) (p : Pos)
    (hp : p ∈ (findReachablePositions m sx sy).1) (hne : p ≠ (sx, sy)) :
    m.tile p.1 p.2 ≠ TILE_LAVA := by
  have hinv := bfsFinal_inv m (sx, sy)
  have hp' : p ∈ (bfsRun m (bfsFuel m) (bfsInit (sx, sy))).visited := hp
  rcases hinv.2.1 p hp' with h | ⟨_, hnb⟩
  · exact absurd h hne
  · intro hl
    apply hnb
    rw [hl]
    exact lava_blocking

/-- C4 at a concrete input: the non-start visited tile `(7, 1)` of `mC3`
is not lava. -/
theorem c4_witness : mC3.tile 7 1 ≠ TILE_LAVA :=
  c4_nonstart_visited_never_hazard mC3 3 1 (7, 1) (by decide) (by decide)

/-- C5 counterexample: on `mC5` with generator state 4, `addLava`
converts the wall `(4, 1)` to lava; the floor tile `(3, 1)`, reachable
from the floor start `(1, 1)` before the conversion, is unreachable
afterwards (the eastward slide now terminates at lava and is rejected),
so hazard scattering does disconnect the floor graph. -/
theorem c5_counterexample_lava_disconnects :
    mC5.tile 1 1 = TILE_FLOOR ∧
    (addLava mC5 4).1.tile 4 1 = TILE_LAVA ∧
    ((3, 1) : Pos) ∈ (findReachablePositions mC5 1 1).1 ∧
    ((3, 1) : Pos) ∉ (findReachablePositions (addLava mC5 4).1 1 1).1 := by decide

/-- C5 (amended): hazard scattering never adds reachability — every tile
the analyzer visits after `addLava` was already visited before — but the
converse fails (see the counterexample); the source runs no connectivity
re-check. -/
theorem c5_addLava_never_adds_reachability (m : GameMap) (s : Nat) (sx sy : Int) (p : Pos)
    (hp : p ∈ (findReachablePositions (addLava m s).1 sx sy).1) :
    p ∈ (findReachablePositions m sx sy).1 :=
  visited_antitone (addLava_tileRel m s) (sx, sy) p hp

/-- C5 at a concrete input: the start survives `addLava` on `mC5`. -/
theorem c5_witness : ((1, 1) : Pos) ∈ (findReachablePositions mC5 1 1).1 :=
  c5_addLava_never_adds_reachability mC5 4 1 1 (1, 1) (by decide)

/-- C6: dungeon generation is deterministic in the seed — the pipeline is
a pure function of `(width, height, seed)` once the random source is the
spec's deterministic seeded generator, so equal seeds give bit-identical
grids, start, exit and optional coin. -/
theorem c6_deterministic_in_seed (w h s1 s2 : Nat) (hs : s1 = s2) :
    generateDungeonSeed w h s1 = generateDungeonSeed w h s2 ∧
    ∀ d1 d2 : Dungeon, generateDungeonSeed w h s1 = some d1 →
      generateDungeonSeed w h s2 = some d2 →
      (∀ x y : Int, d1.map.tile x y = d2.map.tile x y) ∧
      d1.startPoint = d2.startPoint ∧ d1.exitPoint = d2.exitPoint ∧
      d1.coinPosition = d2.coinPosition := by
  subst hs
  refine ⟨rfl, ?_⟩
  intro d1 d2 h1 h2
  rw [h1] at h2
  injection h2 with h
  subst h
  exact ⟨fun _ _ => rfl, rfl, rfl, rfl⟩

/-- C6 at a concrete input. -/
theorem c6_witness : generateDungeonSeed 8 8 42 = generateDungeonSeed 8 8 42 :=
  (c6_deterministic_in_seed 8 8 42 42 rfl).1

/-- C7: the retry controller makes at most 100 attempts, attempt `i`
using seed `level * 1000 + i`; a failed attempt (any error inside it,
modelled as `none`) leads to the next attempt, a success is returned
as-is (each attempt builds its map from scratch), and only exhaustion of
all 100 attempts surfaces as `none`. -/
theorem c7_retry_bounded_and_caught (w h level : Nat) :
    (generateDungeonWithRetries w h level = none ↔
      ∀ i, i < 100 → generateDungeonSeed w h (level * 1000 + i) = none) ∧
    (∀ d : Dungeon, generateDungeonWithRetries w h level = some d ↔
      ∃ i, i < 100 ∧ generateDungeonSeed w h (level * 1000 + i) = some d ∧
        ∀ j, j < i → generateDungeonSeed w h (level * 1000 + j) = none) :=
  generateAttempts_spec w h 100 (level * 1000)

/-- C8 counterexample: a childless 12x12 leaf refuses to split (the
source requires `dim - MIN_LEAF_SIZE > MIN_LEAF_SIZE`, i.e. `dim >= 13`)
even though the candidate split at position 6 leaves both sides exactly
at the minimum leaf size — neither side below 6 — so "fails exactly when
the candidate split would leave either side below 6" is false at this
leaf. -/
theorem c8_counterexample_twelve :
    (Leaf.split (.node 0 0 12 12 none none none) 0).1 = none ∧
    6 + 6 = 12 ∧ MIN_LEAF_SIZE ≤ 6 :=
  ⟨rfl, rfl, by decide⟩

/-- C8 (amended): for a childless leaf the split fails exactly when the
dimension along the chosen axis is at most `2 * MIN_LEAF_SIZE = 12`
(one more than the claim's "either side below 6" allows); on success the
children exactly partition the parent with both split-axis sides at least
6; an aspect ratio of at least 1.25 forces the long axis; a 5x5 leaf
always fails. -/
theorem c8_split_boundary (x y w h s : Nat) :
    ((Leaf.split (.node x y w h none none none) s).1 = none ↔
      (if chosenSplitH w h (rngBetween 0 1 s).1 then h else w) ≤ 2 * MIN_LEAF_SIZE) ∧
    (∀ l' : Leaf, (Leaf.split (.node x y w h none none none) s).1 = some l' →
      MIN_LEAF_SIZE ≤ splitDraw w h s ∧
      splitDraw w h s + MIN_LEAF_SIZE ≤
        (if chosenSplitH w h (rngBetween 0 1 s).1 then h else w) ∧
      l' = (if chosenSplitH w h (rngBetween 0 1 s).1 then
        Leaf.node x y w h (some (.node x y w (splitDraw w h s) none none none))
          (some (.node x (y + splitDraw w h s) w (h - splitDraw w h s) none none none)) none
      else
        Leaf.node x y w h (some (.node x y (splitDraw w h s) h none none none))
          (some (.node (x + splitDraw w h s) y (w - splitDraw w h s) h none none none)) none)) ∧
    (w > h ∧ 4 * w ≥ 5 * h → chosenSplitH w h (rngBetween 0 1 s).1 = false) ∧
    (h > w ∧ 4 * h ≥ 5 * w → chosenSplitH w h (rngBetween 0 1 s).1 = true) ∧
    (w = 5 ∧ h = 5 → (Leaf.split (.node x y w h none none none) s).1 = none) := by
  have hguard : ¬ ((none : Option Leaf).isSome = true ∨ (none : Option Leaf).isSome = true) := by
    simp
  have hratio1 : w > h ∧ 4 * w ≥ 5 * h → chosenSplitH w h (rngBetween 0 1 s).1 = false := by
    intro hc; unfold chosenSplitH; rw [if_pos hc]
  have hratio2 : h > w ∧ 4 * h ≥ 5 * w → chosenSplitH w h (rngBetween 0 1 s).1 = true := by
    intro hc
    unfold chosenSplitH
    rw [if_neg (by omega), if_pos hc]
  rw [Leaf.split, if_neg hguard]
  by_cases hmax : splitMax w h (rngBetween 0 1 s).1 ≤ MIN_LEAF_SIZE
  · rw [if_pos hmax]
    unfold splitMax MIN_LEAF_SIZE at hmax
    refine ⟨⟨fun _ => by unfold MIN_LEAF_SIZE; omega, fun _ => rfl⟩,
      fun l' hl' => absurd hl' (by simp), hratio1, hratio2, fun _ => rfl⟩
  · rw [if_neg hmax]
    have hb := rngBetween_bounds MIN_LEAF_SIZE (splitMax w h (rngBetween 0 1 s).1)
      (rngBetween 0 1 s).2 (by omega)
    unfold splitMax at hmax
    refine ⟨?_, ?_, hratio1, hratio2, ?_⟩
    · constructor
      · intro hc
        exfalso
        revert hc
        cases chosenSplitH w h (rngBetween 0 1 s).1 <;> simp
      · intro hc
        exfalso
        unfold MIN_LEAF_SIZE at hmax hc
        omega
    · intro l' hl'
      refine ⟨hb.1, ?_, ?_⟩
      · have h2 := hb.2
        unfold splitDraw
        unfold splitMax at h2 ⊢
        unfold MIN_LEAF_SIZE at *
        omega
      · revert hl'
        cases chosenSplitH w h (rngBetween 0 1 s).1 <;>
          · intro hl'
            simp only [Bool.false_eq_true, if_true, if_false] at hl' ⊢
            injection hl' with h'
            rw [← h']
    · intro ⟨hw, hh⟩
      exfalso
      apply hmax
      subst hw; subst hh
      cases chosenSplitH 5 5 (rngBetween 0 1 s).1 <;> simp [MIN_LEAF_SIZE]

/-- C9: for every map and generator state, `addLava` changes exactly
`floor(5%)` of the number of non-border wall tiles with a floor
neighbour; every changed tile is such a candidate, turned from wall to
lava; every other tile — all floor tiles and the whole border included —
is untouched, and the dimensions are unchanged. -/
theorem c9_addLava_frame (m : GameMap) (s : Nat) :
    ((gridFinset m).filter
        (fun p => (addLava m s).1.tile p.1 p.2 ≠ m.tile p.1 p.2)).card
      = (lavaCandidates m).length * 5 / 100 ∧
    (∀ x y : Int, (addLava m s).1.tile x y ≠ m.tile x y →
      ((x, y) ∈ lavaCandidates m ∧ m.tile x y = TILE_WALL ∧
        (addLava m s).1.tile x y = TILE_LAVA)) ∧
    (addLava m s).1.width = m.width ∧ (addLava m s).1.height = m.height :=
  addLava_frame m s

/-- C9 at a concrete input: on `mC5` with state 4 the only changed tile
is the candidate `(4, 1)`, a wall turned to lava. -/
theorem c9_witness :
    ((4 : Int), (1 : Int)) ∈ lavaCandidates mC5 ∧ mC5.tile 4 1 = TILE_WALL ∧
      (addLava mC5 4).1.tile 4 1 = TILE_LAVA :=
  (c9_addLava_frame mC5 4).2.1 4 1 (by decide)

/-- C10: every door `getDoorPosition` returns on a room at least 4x4
lies on the room's perimeter one tile from a corner and is never itself a
corner; hence for a corridor between two rooms with disjoint interiors,
`checkAndPlaceStone` takes its not-a-corner branch for both doors and the
final map carries a stone strictly inside each room, adjacent to its
door. -/
theorem c10_doors_noncorner_stones (roomA roomB : Room) (m : GameMap) (s : Nat)
    (h4wA : 4 ≤ roomA.width) (h4hA : 4 ≤ roomA.height)
    (h4wB : 4 ≤ roomB.width) (h4hB : 4 ≤ roomB.height)
    (hdisj : ∀ p : Nat × Nat, insideRoom roomA p → insideRoom roomB p → False) :
    ¬ isCorner roomA (getDoorPosition roomA s).1 ∧
    onPerimeter roomA (getDoorPosition roomA s).1 ∧
    (∃ c ∈ roomCorners roomA, adjacent1 c (getDoorPosition roomA s).1) ∧
    ¬ isCorner roomB (getDoorPosition roomB (getDoorPosition roomA s).2).1 ∧
    onPerimeter roomB (getDoorPosition roomB (getDoorPosition roomA s).2).1 ∧
    (∃ c ∈ roomCorners roomB,
      adjacent1 c (getDoorPosition roomB (getDoorPosition roomA s).2).1) ∧
    (createCorridor roomA roomB m s).2.2.1.tile
        ((stonePos roomA (getDoorPosition roomA s).1).1 : Int)
        ((stonePos roomA (getDoorPosition roomA s).1).2 : Int) = TILE_STONE ∧
    (createCorridor roomA roomB m s).2.2.1.tile
        ((stonePos roomB (getDoorPosition roomB (getDoorPosition roomA s).2).1).1 : Int)
        ((stonePos roomB (getDoorPosition roomB (getDoorPosition roomA s).2).1).2 : Int)
      = TILE_STONE ∧
    insideRoom roomA (stonePos roomA (getDoorPosition roomA s).1) ∧
    adjacent1 (getDoorPosition roomA s).1 (stonePos roomA (getDoorPosition roomA s).1) ∧
    insideRoom roomB (stonePos roomB (getDoorPosition roomB (getDoorPosition roomA s).2).1) ∧
    adjacent1 (getDoorPosition roomB (getDoorPosition roomA s).2).1
      (stonePos roomB (getDoorPosition roomB (getDoorPosition roomA s).2).1) := by
  obtain ⟨hncA, hperA, hcorA, hinA, hadjA⟩ :=
    doorPositions_spec roomA h4wA h4hA _ (getDoorPosition_mem roomA s)
  obtain ⟨hncB, hperB, hcorB, hinB, hadjB⟩ :=
    doorPositions_spec roomB h4wB h4hB _
      (getDoorPosition_mem roomB (getDoorPosition roomA s).2)
  have hcsA : ∀ X : GameMap, checkAndPlaceStone roomA (getDoorPosition roomA s).1 X =
      setTile X (((stonePos roomA (getDoorPosition roomA s).1).1 : Int),
        ((stonePos roomA (getDoorPosition roomA s).1).2 : Int)) TILE_STONE :=
    fun X => by rw [checkAndPlaceStone, if_neg hncA]
  have hcsB : ∀ X : GameMap,
      checkAndPlaceStone roomB (getDoorPosition roomB (getDoorPosition roomA s).2).1 X =
      setTile X
        (((stonePos roomB (getDoorPosition roomB (getDoorPosition roomA s).2).1).1 : Int),
         ((stonePos roomB (getDoorPosition roomB (getDoorPosition roomA s).2).1).2 : Int))
        TILE_STONE :=
    fun X => by rw [checkAndPlaceStone, if_neg hncB]
  have hne : (((stonePos roomA (getDoorPosition roomA s).1).1 : Int),
        ((stonePos roomA (getDoorPosition roomA s).1).2 : Int)) ≠
      (((stonePos roomB (getDoorPosition roomB (getDoorPosition roomA s).2).1).1 : Int),
       ((stonePos roomB (getDoorPosition roomB (getDoorPosition roomA s).2).1).2 : Int)) := by
    intro hc
    injection hc with hc1 hc2
    rw [Int.natCast_inj] at hc1 hc2
    exact hdisj _ hinA (by rw [show stonePos roomA (getDoorPosition roomA s).1 =
      stonePos roomB (getDoorPosition roomB (getDoorPosition roomA s).2).1 from
        Prod.ext hc1 hc2]; exact hinB)
  refine ⟨hncA, hperA, hcorA, hncB, hperB, hcorB, ?_, ?_, hinA, hadjA, hinB, hadjB⟩
  · simp only [createCorridor]
    rw [hcsB, hcsA, setTile_tile, if_neg hne, setTile_tile, if_pos rfl]
  · simp only [createCorridor]
    rw [hcsB, setTile_tile, if_pos rfl]

/-- C10 at a concrete input: two 4x4 rooms with disjoint interiors get a
stone inside the first room next to its door. -/
theorem c10_witness :
    (createCorridor ⟨1, 1, 4, 4, []⟩ ⟨10, 1, 4, 4, []⟩ (allWall 16 8) 0).2.2.1.tile
      ((stonePos ⟨1, 1, 4, 4, []⟩ (getDoorPosition ⟨1, 1, 4, 4, []⟩ 0).1).1 : Int)
      ((stonePos ⟨1, 1, 4, 4, []⟩ (getDoorPosition ⟨1, 1, 4, 4, []⟩ 0).1).2 : Int)
      = TILE_STONE :=
  (c10_doors_noncorner_stones ⟨1, 1, 4, 4, []⟩ ⟨10, 1, 4, 4, []⟩ (allWall 16 8) 0
    (by decide) (by decide) (by decide) (by decide)
    (fun p h1 h2 => by
      simp only [insideRoom] at h1 h2
      omega)).2.2.2.2.2.2.1
